import Mathlib

/-!
Verification of the objtool ELF model (`tools/objtool/elf.c`) and the
LoongArch jump-table resolver (`tools/objtool/arch/loongarch/special.c`)
as a shallow embedding.  Pointer-linked structures (hash tables, intrusive
lists, the symbol interval tree) are represented by lists and an explicit
binary-tree type; identities of heap nodes are represented by numeric ids.
-/

set_option linter.unusedVariables false

namespace Objtool

/-! ## Basics: names, symbol kinds, decoded instruction words -/

/-- A C string, as a list of characters. -/
abbrev CName := List Char

/-- Models `!strncmp(n, p, strlen(p))`: `p` is a prefix of `n`. -/
def nameStarts (p n : CName) : Bool := p.isPrefixOf n

/-- ELF symbol type (`GELF_ST_TYPE`). -/
inductive SymType where
  | notype | object | func | sect | file | other
deriving DecidableEq, Repr

/-- ELF symbol binding (`GELF_ST_BIND`). -/
inductive SymBind where
  | localB | globalB | weakB
deriving DecidableEq, Repr

/-- Modelled from the spec: the LoongArch decoder (`asm/inst.h`, whose encodings
are not part of the sources here) treats each 32-bit word as a tagged union
over a fixed set of encoding formats, with the opcode discriminating, so a
word matches at most one of the opcode patterns used by the resolver.
Fields are named as in the C bitfield views (`rd`, `rj`, `rk`, immediates). -/
inductive Code where
  | pcaddu12i (rd : Nat) (imm : Int)
  | lu12iw (rd : Nat) (imm : Int)
  | lu32id (rd : Nat) (imm : Int)
  | lu52id (rd rj : Nat) (imm : Int)
  | ori (rd rj : Nat) (imm : Nat)
  | addid (rd rj : Nat) (imm : Int)
  | alsld (rd rj rk sa : Nat)
  | ldd (rd rj : Nat) (imm : Int)
  | ldptrd (rd rj : Nat) (imm : Int)
  | ldxd (rd rj rk : Nat)
  | std (rd rj : Nat) (imm : Int)
  | stptrd (rd rj : Nat) (imm : Int)
  | addd (rd rj rk : Nat)
  | jirl (rd rj : Nat) (imm : Int)
  | otherInsn
deriving DecidableEq, Repr

/-! ## ELF relocation model (`elf.c`)

A `JReloc` is one entry of a relocation section; `rsec` is the id of the
reloc section that owns it, `offset` the location it applies to in the base
section, and the `sym*` fields are the resolved fields of `reloc->sym`. -/

structure JReloc where
  rid : Nat
  rsec : Nat
  offset : Nat
  symName : CName
  symBind : SymBind
  symType : SymType
  symSec : Nat
  symOff : Nat
  jump_table_start : Bool
deriving DecidableEq, Repr

/-- A section, reduced to the fields the reloc lookup needs: its id and the
id of its companion reloc section (`sec->reloc`), if any. -/
structure ESec where
  sid : Nat
  reloc : Option Nat
deriving DecidableEq, Repr

structure Elf where
  sections : List ESec
  relocs : List JReloc
deriving DecidableEq, Repr

/-- `sec->reloc` for the section with id `sec`. -/
def Elf.relocSecOf (e : Elf) (sec : Nat) : Option Nat :=
  match e.sections.find? (fun s => s.sid == sec) with
  | none => none
  | some s => s.reloc

/-- Modelled from the spec: `find_reloc_by_dest_range` probes the per-section
reloc hash for every candidate offset (`for_offset_range` and
`sec_offset_hash` live in `objtool/elf.h`, not among the sources here); the
bucket for `(rsec, o)` holds the relocs of reloc section `rsec` at offset
`o`. -/
def Elf.bucket (e : Elf) (rsec o : Nat) : List JReloc :=
  e.relocs.filter (fun r => r.rsec == rsec && r.offset == o)

/-- The body of the probe loop of `find_reloc_by_dest_range`: skip relocs of
other sections, keep the smallest in-range offset. -/
def probeFun (rsec offset len : Nat) (r : Option JReloc) (reloc : JReloc) : Option JReloc :=
  if reloc.rsec == rsec then
    if offset ≤ reloc.offset ∧ reloc.offset < offset + len then
      match r with
      | none => some reloc
      | some r0 => if reloc.offset < r0.offset then some reloc else some r0
    else r
  else r

/-- One hash-chain probe of `find_reloc_by_dest_range`. -/
def probeStep (rsec offset len : Nat) (chain : List JReloc) : Option JReloc :=
  chain.foldl (probeFun rsec offset len) none

/-- `find_reloc_by_dest_range` (`elf.c:238`): return `NULL` when the section
has no companion reloc section, otherwise probe each candidate offset in
order and return at the first chain that produced a candidate. -/
def find_reloc_by_dest_range (e : Elf) (sec offset len : Nat) : Option JReloc :=
  match e.relocSecOf sec with
  | none => none
  | some rsec =>
      (List.range' offset len).findSome? (fun o => probeStep rsec offset len (e.bucket rsec o))

/-- `find_reloc_by_dest` (`elf.c:267`). -/
def find_reloc_by_dest (e : Elf) (sec offset : Nat) : Option JReloc :=
  find_reloc_by_dest_range e sec offset 1

/-- A reloc of reloc section `rsec` whose destination lies in
`[offset, offset+len)`. -/
def relocInRange (rsec offset len : Nat) (r : JReloc) : Prop :=
  r.rsec = rsec ∧ offset ≤ r.offset ∧ r.offset < offset + len

instance (rsec offset len : Nat) (r : JReloc) : Decidable (relocInRange rsec offset len r) := by
  unfold relocInRange; infer_instance

lemma findSome?_congr_of_eq {α β : Type} (f g : α → Option β) :
    ∀ l : List α, (∀ a ∈ l, f a = g a) → l.findSome? f = l.findSome? g := by
  intro l
  induction l with
  | nil => intro _; rfl
  | cons x rest ih =>
      intro h
      rw [List.findSome?_cons, List.findSome?_cons, h x (List.mem_cons_self x rest)]
      cases g x with
      | some b => rfl
      | none => exact ih (fun a ha => h a (List.mem_cons_of_mem x ha))

lemma mem_of_head?_eq {α : Type} {l : List α} {a : α} (h : l.head? = some a) : a ∈ l := by
  cases l with
  | nil => simp at h
  | cons x rest =>
      simp only [List.head?] at h
      rw [Option.some_inj] at h
      rw [← h]
      exact List.mem_cons_self x rest

lemma probeStep_fold_some (rsec offset len : Nat) (a : JReloc) (chain : List JReloc)
    (hc : ∀ r ∈ chain, r.offset = a.offset) :
    chain.foldl (probeFun rsec offset len) (some a) = some a := by
  induction chain with
  | nil => rfl
  | cons x rest ih =>
      have hx : x.offset = a.offset := hc x (List.mem_cons_self x rest)
      have hrest : ∀ r ∈ rest, r.offset = a.offset := fun r hr => hc r (List.mem_cons_of_mem x hr)
      simp only [List.foldl_cons]
      have hstep : probeFun rsec offset len (some a) x = some a := by
        unfold probeFun
        by_cases h1 : (x.rsec == rsec) = true
        · by_cases h2 : offset ≤ x.offset ∧ x.offset < offset + len
          · simp [h1, h2, hx]
          · simp [h1, h2]
        · simp [h1]
      rw [hstep]
      exact ih hrest

lemma probeStep_eq_head (rsec offset len o : Nat) (chain : List JReloc)
    (h1 : offset ≤ o) (h2 : o < offset + len)
    (hc : ∀ r ∈ chain, r.rsec = rsec ∧ r.offset = o) :
    probeStep rsec offset len chain = chain.head? := by
  cases chain with
  | nil => rfl
  | cons x rest =>
      obtain ⟨hxr, hxo⟩ := hc x (List.mem_cons_self x rest)
      simp only [probeStep, List.foldl_cons, List.head?]
      have hstep : probeFun rsec offset len none x = some x := by
        unfold probeFun
        have hxr' : (x.rsec == rsec) = true := by simp [hxr]
        have hrange : offset ≤ x.offset ∧ x.offset < offset + len := by
          constructor <;> omega
        rw [if_pos hxr', if_pos hrange]
      rw [hstep]
      exact probeStep_fold_some rsec offset len x rest
        (fun r hr => by
          have := (hc r (List.mem_cons_of_mem x hr)).2
          rw [this, hxo])

lemma bucket_mem (e : Elf) (rsec o : Nat) (r : JReloc) :
    r ∈ e.bucket rsec o ↔ (r ∈ e.relocs ∧ r.rsec = rsec ∧ r.offset = o) := by
  simp [Elf.bucket, List.mem_filter]

lemma bucket_spec (e : Elf) (rsec o : Nat) (r : JReloc) (hr : r ∈ e.bucket rsec o) :
    r ∈ e.relocs ∧ r.rsec = rsec ∧ r.offset = o :=
  (bucket_mem e rsec o r).1 hr

/-- Core scan lemma: on the window `[offset, offset+len)` the probe loop
returns a reloc of minimal offset among the in-range relocs of `rsec`, and
`none` exactly when there are none. -/
lemma range_scan_spec (e : Elf) (rsec : Nat) :
    ∀ len offset,
      ((∃ r ∈ e.relocs, relocInRange rsec offset len r) →
        ∃ r, (List.range' offset len).findSome?
              (fun o => probeStep rsec offset len (e.bucket rsec o)) = some r ∧
          r ∈ e.relocs ∧ relocInRange rsec offset len r ∧
          ∀ r' ∈ e.relocs, relocInRange rsec offset len r' → r.offset ≤ r'.offset) ∧
      ((¬ ∃ r ∈ e.relocs, relocInRange rsec offset len r) →
        (List.range' offset len).findSome?
          (fun o => probeStep rsec offset len (e.bucket rsec o)) = none) := by
  intro len
  induction len with
  | zero =>
      intro offset
      constructor
      · rintro ⟨r, _, _, _, h3⟩; omega
      · intro _; simp [List.range']
  | succ n ih =>
      intro offset
      have hrange : List.range' offset (n + 1) = offset :: List.range' (offset + 1) n :=
        List.range'_succ offset n 1
      have hhead : probeStep rsec offset (n + 1) (e.bucket rsec offset)
          = (e.bucket rsec offset).head? := by
        apply probeStep_eq_head
        · exact Nat.le_refl offset
        · omega
        · intro r hr; exact (bucket_spec e rsec offset r hr).2
      -- the tail scan probes the same window but starting one offset later;
      -- `probeStep`'s in-range test only depends on the window bounds
      have htail : ∀ o, o ∈ List.range' (offset + 1) n →
          probeStep rsec offset (n + 1) (e.bucket rsec o)
            = (e.bucket rsec o).head? := by
        intro o ho
        have hb := List.mem_range'_1.mp ho
        exact probeStep_eq_head rsec offset (n + 1) o _ (by omega) (by omega)
          (fun r hr => (bucket_spec e rsec o r hr).2)
      -- and for the narrower window `[offset+1, offset+1+n)` likewise
      have htail' : ∀ o, o ∈ List.range' (offset + 1) n →
          probeStep rsec (offset + 1) n (e.bucket rsec o)
            = (e.bucket rsec o).head? := by
        intro o ho
        have hb := List.mem_range'_1.mp ho
        exact probeStep_eq_head rsec (offset + 1) n o _ (by omega) (by omega)
          (fun r hr => (bucket_spec e rsec o r hr).2)
      have hscan_eq : (List.range' (offset + 1) n).findSome?
            (fun o => probeStep rsec offset (n + 1) (e.bucket rsec o))
          = (List.range' (offset + 1) n).findSome?
            (fun o => probeStep rsec (offset + 1) n (e.bucket rsec o)) := by
        apply findSome?_congr_of_eq
        intro o ho; rw [htail o ho, htail' o ho]
      constructor
      · rintro ⟨r0, hr0m, hr0⟩
        rw [hrange, List.findSome?_cons, hhead]
        cases hb : (e.bucket rsec offset).head? with
        | some rh =>
            refine ⟨rh, rfl, ?_⟩
            have hmem : rh ∈ e.bucket rsec offset := mem_of_head?_eq hb
            obtain ⟨h1, h2, h3⟩ := bucket_spec e rsec offset rh hmem
            refine ⟨h1, ⟨h2, by omega, by omega⟩, ?_⟩
            intro r' _ hr'
            rw [h3]; exact hr'.2.1
        | none =>
            have hempty : e.bucket rsec offset = [] := by
              cases hc : e.bucket rsec offset with
              | nil => rfl
              | cons a l => rw [hc] at hb; simp at hb
            have hnooff : ∀ r' ∈ e.relocs, r'.rsec = rsec → r'.offset ≠ offset := by
              intro r' hm h1 h2
              have : r' ∈ e.bucket rsec offset := (bucket_mem e rsec offset r').2 ⟨hm, h1, h2⟩
              rw [hempty] at this; simp at this
            have hr0' : relocInRange rsec (offset + 1) n r0 := by
              obtain ⟨a, b, c⟩ := hr0
              have : r0.offset ≠ offset := hnooff r0 hr0m a
              exact ⟨a, by omega, by omega⟩
            obtain ⟨r, hr_eq, hr_mem, hr_in, hr_min⟩ :=
              ((ih (offset + 1)).1 ⟨r0, hr0m, hr0'⟩)
            rw [hscan_eq]
            refine ⟨r, hr_eq, hr_mem, ?_, ?_⟩
            · obtain ⟨a, b, c⟩ := hr_in; exact ⟨a, by omega, by omega⟩
            · intro r' hm' hr'
              obtain ⟨ha, hb', hc'⟩ := hr'
              have : r'.offset ≠ offset := hnooff r' hm' ha
              exact hr_min r' hm' ⟨ha, by omega, by omega⟩
      · intro hno
        rw [hrange, List.findSome?_cons, hhead]
        have hempty : e.bucket rsec offset = [] := by
          cases hc : e.bucket rsec offset with
          | nil => rfl
          | cons a l =>
              exfalso
              have hmem : a ∈ e.bucket rsec offset := by rw [hc]; exact List.mem_cons_self a l
              obtain ⟨h1, h2, h3⟩ := bucket_spec e rsec offset a hmem
              exact hno ⟨a, h1, h2, by omega, by omega⟩
        rw [hempty]
        simp only [List.head?]
        rw [hscan_eq]
        apply (ih (offset + 1)).2
        rintro ⟨r, hm, h1, h2, h3⟩
        exact hno ⟨r, hm, h1, by omega, by omega⟩

/-- **C9.** `find_reloc_by_dest_range` returns an in-range reloc of the
companion reloc section whenever one exists, of smallest offset when several
do; with no companion reloc section or no in-range reloc it returns none. -/
theorem find_reloc_by_dest_range_spec (e : Elf) (sec offset len : Nat) :
    (∀ rsec, e.relocSecOf sec = some rsec →
      ((∃ r ∈ e.relocs, relocInRange rsec offset len r) →
        ∃ r, find_reloc_by_dest_range e sec offset len = some r ∧ r ∈ e.relocs ∧
          relocInRange rsec offset len r ∧
          ∀ r' ∈ e.relocs, relocInRange rsec offset len r' → r.offset ≤ r'.offset) ∧
      ((¬ ∃ r ∈ e.relocs, relocInRange rsec offset len r) →
        find_reloc_by_dest_range e sec offset len = none)) ∧
    (e.relocSecOf sec = none → find_reloc_by_dest_range e sec offset len = none) := by
  constructor
  · intro rsec hsec
    have hx := range_scan_spec e rsec len offset
    constructor
    · intro hex
      obtain ⟨r, h1, h2, h3, h4⟩ := hx.1 hex
      exact ⟨r, by rw [find_reloc_by_dest_range, hsec]; exact h1, h2, h3, h4⟩
    · intro hno
      rw [find_reloc_by_dest_range, hsec]
      exact hx.2 hno
  · intro hnone
    rw [find_reloc_by_dest_range, hnone]

/-- A small concrete reloc for witnesses. -/
def wReloc (rid offset symSec symOff : Nat) : JReloc :=
  { rid := rid, rsec := 10, offset := offset, symName := [], symBind := .localB,
    symType := .func, symSec := symSec, symOff := symOff, jump_table_start := false }

/-- A small concrete ELF for witnesses: section 1 with reloc section 10
holding two relocs at offsets 24 and 8. -/
def wElf : Elf :=
  { sections := [{ sid := 1, reloc := some 10 }],
    relocs := [wReloc 0 24 1 0, wReloc 1 8 1 4] }

/-- Witness for C9 on a concrete ELF: two relocs in range, the smaller is
returned. -/
theorem find_reloc_by_dest_range_spec_witness :
    ∃ r, find_reloc_by_dest_range wElf 1 4 32 = some r ∧ r.offset = 8 := by
  obtain ⟨r, h1, h2, h3, h4⟩ :=
    ((find_reloc_by_dest_range_spec wElf 1 4 32).1 10 (by decide)).1
      ⟨wReloc 1 8 1 4, by decide, by decide⟩
  refine ⟨r, h1, ?_⟩
  have h5 := h4 (wReloc 1 8 1 4) (by decide) (by decide)
  have h6 := h3.2.1
  have h7 : (wReloc 1 8 1 4).offset = 8 := rfl
  -- r is in range with offset ≤ 8; the only relocs are at offsets 24 and 8
  have h8 : r = wReloc 0 24 1 0 ∨ r = wReloc 1 8 1 4 := by
    simpa [wElf] using h2
  rcases h8 with h | h
  · rw [h] at h5; simp [wReloc] at h5
  · rw [h]; rfl

/-! ## Instructions and the jump-table anchor-marking pass
(`arch/loongarch/special.c`) -/

/-- The parent function of an instruction's function: the result of
`insn_func(insn)->pfunc`, reduced to the fields the resolver reads
(identity, home section, entry offset). -/
structure PFunc where
  sid : Nat
  sec : Nat
  off : Nat
deriving DecidableEq, Repr

/-- A decoded instruction as the walker hands it over: home section and
offset, the decoded word, and `insn_func(insn)->pfunc` (none when
`insn_func(insn)` is NULL). -/
structure RInsn where
  sec : Nat
  off : Nat
  code : Code
  pf : Option PFunc
deriving DecidableEq, Repr

/-- `".L"` as a character list. -/
def dotL : CName := ['.', 'L']

/-- `"jumptable"` as a character list. -/
def jumptableName : CName := ['j', 'u', 'm', 'p', 't', 'a', 'b', 'l', 'e']

/-- Set `jump_table_start` on the reloc with id `rid`. -/
def markOne (rid : Nat) (r : JReloc) : JReloc :=
  if r.rid == rid then { r with jump_table_start := true } else r

def Elf.markRid (e : Elf) (rid : Nat) : Elf :=
  { e with relocs := e.relocs.map (markOne rid) }

/-- One iteration of the `func_for_each_insn` loop of
`arch_mark_func_jump_tables` (`special.c:21`): on a `pcaddu12i` whose reloc
targets a `.L`/`jumptable` symbol, follow one hop; if the landed reloc's
target symbol name begins with `.L`, mark it as a jump-table start. -/
def markStep (e : Elf) (insn : RInsn) : Elf :=
  match insn.code with
  | .pcaddu12i _ _ =>
      match find_reloc_by_dest e insn.sec insn.off with
      | none => e
      | some reloc =>
          if nameStarts dotL reloc.symName || nameStarts jumptableName reloc.symName then
            match find_reloc_by_dest e reloc.symSec reloc.symOff with
            | none => e
            | some r2 =>
                if nameStarts dotL r2.symName then e.markRid r2.rid else e
          else e
  | _ => e

/-- `arch_mark_func_jump_tables` (`special.c:14`), with the function's
instructions supplied as a list (the `func_for_each_insn` traversal). -/
def arch_mark_func_jump_tables (e : Elf) (insns : List RInsn) : Elf :=
  insns.foldl markStep e

/-- The id of the reloc that `markStep` would mark for `insn`, if any. -/
def hopRid (e : Elf) (insn : RInsn) : Option Nat :=
  match insn.code with
  | .pcaddu12i _ _ =>
      match find_reloc_by_dest e insn.sec insn.off with
      | none => none
      | some reloc =>
          if nameStarts dotL reloc.symName || nameStarts jumptableName reloc.symName then
            match find_reloc_by_dest e reloc.symSec reloc.symOff with
            | none => none
            | some r2 =>
                if nameStarts dotL r2.symName then some r2.rid else none
          else none
  | _ => none

/-- Apply a set of marks at once. -/
def applyMarks (e : Elf) (rids : List Nat) : Elf :=
  { e with relocs := e.relocs.map (fun r =>
      if rids.contains r.rid then { r with jump_table_start := true } else r) }

lemma markOne_rsec (rid : Nat) (r : JReloc) : (markOne rid r).rsec = r.rsec := by
  unfold markOne; split <;> rfl

lemma markOne_offset (rid : Nat) (r : JReloc) : (markOne rid r).offset = r.offset := by
  unfold markOne; split <;> rfl

lemma markOne_symName (rid : Nat) (r : JReloc) : (markOne rid r).symName = r.symName := by
  unfold markOne; split <;> rfl

lemma markOne_symSec (rid : Nat) (r : JReloc) : (markOne rid r).symSec = r.symSec := by
  unfold markOne; split <;> rfl

lemma markOne_symOff (rid : Nat) (r : JReloc) : (markOne rid r).symOff = r.symOff := by
  unfold markOne; split <;> rfl

lemma markOne_rid (rid : Nat) (r : JReloc) : (markOne rid r).rid = r.rid := by
  unfold markOne; split <;> rfl

lemma relocSecOf_markRid (e : Elf) (rid sec : Nat) :
    (e.markRid rid).relocSecOf sec = e.relocSecOf sec := rfl

lemma bucket_markRid (e : Elf) (rid rsec o : Nat) :
    (e.markRid rid).bucket rsec o = (e.bucket rsec o).map (markOne rid) := by
  show (e.relocs.map (markOne rid)).filter _ = ((e.relocs.filter _).map (markOne rid))
  rw [List.filter_map]
  congr 1
  apply List.filter_congr
  intro r _
  simp [Function.comp, markOne_rsec, markOne_offset]

lemma probeFun_markOne (rid rsec offset len : Nat) (acc : Option JReloc) (x : JReloc) :
    probeFun rsec offset len (acc.map (markOne rid)) (markOne rid x)
      = (probeFun rsec offset len acc x).map (markOne rid) := by
  unfold probeFun
  rw [markOne_rsec, markOne_offset]
  by_cases h1 : (x.rsec == rsec) = true
  · by_cases h2 : offset ≤ x.offset ∧ x.offset < offset + len
    · cases acc with
      | none => simp [h1, h2]
      | some a =>
          simp only [h1, if_pos h2, Option.map_some', markOne_offset]
          by_cases h3 : x.offset < a.offset
          · simp [h3]
          · simp [h3]
    · simp [h1, h2]
  · simp [h1]

lemma probeStep_fold_map (rid rsec offset len : Nat) :
    ∀ (chain : List JReloc) (acc : Option JReloc),
      (chain.map (markOne rid)).foldl (probeFun rsec offset len) (acc.map (markOne rid))
      = (chain.foldl (probeFun rsec offset len) acc).map (markOne rid) := by
  intro chain
  induction chain with
  | nil => intro acc; rfl
  | cons x rest ih =>
      intro acc
      simp only [List.map_cons, List.foldl_cons]
      rw [probeFun_markOne]
      exact ih _

lemma probeStep_markRid (rid rsec offset len : Nat) (chain : List JReloc) :
    probeStep rsec offset len (chain.map (markOne rid))
      = (probeStep rsec offset len chain).map (markOne rid) := by
  have := probeStep_fold_map rid rsec offset len chain none
  simpa [probeStep] using this

lemma findSome?_option_map {α β γ : Type} (l : List α) (g : α → Option β) (m : β → γ) :
    l.findSome? (fun a => (g a).map m) = (l.findSome? g).map m := by
  induction l with
  | nil => rfl
  | cons x rest ih =>
      rw [List.findSome?_cons, List.findSome?_cons]
      cases g x with
      | some b => rfl
      | none => simpa using ih

lemma find_reloc_by_dest_range_markRid (e : Elf) (rid sec offset len : Nat) :
    find_reloc_by_dest_range (e.markRid rid) sec offset len
      = (find_reloc_by_dest_range e sec offset len).map (markOne rid) := by
  unfold find_reloc_by_dest_range
  rw [relocSecOf_markRid]
  cases h : e.relocSecOf sec with
  | none => rfl
  | some rsec =>
      simp only []
      have : (fun o => probeStep rsec offset len ((e.markRid rid).bucket rsec o))
           = (fun o => (probeStep rsec offset len (e.bucket rsec o)).map (markOne rid)) := by
        funext o
        rw [bucket_markRid, probeStep_markRid]
      rw [this]
      exact findSome?_option_map _ _ _

lemma find_reloc_by_dest_markRid (e : Elf) (rid sec offset : Nat) :
    find_reloc_by_dest (e.markRid rid) sec offset
      = (find_reloc_by_dest e sec offset).map (markOne rid) :=
  find_reloc_by_dest_range_markRid e rid sec offset 1

/-- Qualification is insensitive to marking: marking changes only
`jump_table_start`, which the lookups never read. -/
lemma hopRid_markRid (e : Elf) (rid : Nat) (insn : RInsn) :
    hopRid (e.markRid rid) insn = hopRid e insn := by
  unfold hopRid
  cases hc : insn.code <;> try rfl
  rw [find_reloc_by_dest_markRid]
  cases h1 : find_reloc_by_dest e insn.sec insn.off with
  | none => rfl
  | some reloc =>
      simp only [Option.map_some', markOne_symName, markOne_symSec, markOne_symOff]
      by_cases h2 : (nameStarts dotL reloc.symName || nameStarts jumptableName reloc.symName) = true
      · simp only [h2, if_pos]
        rw [find_reloc_by_dest_markRid]
        cases h3 : find_reloc_by_dest e reloc.symSec reloc.symOff with
        | none => rfl
        | some r2 =>
            simp only [Option.map_some', markOne_symName, markOne_rid]
      · simp only [Bool.not_eq_true] at h2
        simp [h2]

lemma markStep_eq (e : Elf) (insn : RInsn) :
    markStep e insn = match hopRid e insn with
                      | none => e
                      | some rid => e.markRid rid := by
  unfold markStep hopRid
  cases hc : insn.code <;> try rfl
  cases h1 : find_reloc_by_dest e insn.sec insn.off with
  | none => rfl
  | some reloc =>
      by_cases h2 : (nameStarts dotL reloc.symName || nameStarts jumptableName reloc.symName) = true
      · simp only [h2, if_pos]
        cases h3 : find_reloc_by_dest e reloc.symSec reloc.symOff with
        | none => rfl
        | some r2 =>
            by_cases h4 : nameStarts dotL r2.symName = true
            · simp [h4]
            · simp [h4]
      · simp only [Bool.not_eq_true] at h2
        simp [h2]

lemma map_id_of_eq {α : Type} (f : α → α) (h : ∀ a, f a = a) :
    ∀ l : List α, l.map f = l := by
  intro l
  induction l with
  | nil => rfl
  | cons x r ih => rw [List.map_cons, h, ih]

lemma applyMarks_nil (e : Elf) : applyMarks e [] = e := by
  unfold applyMarks
  cases e with
  | mk secs rels =>
      simp only
      congr 1
      exact map_id_of_eq _ (fun r => rfl) rels

lemma applyMarks_point (rid : Nat) (rids : List Nat) (r : JReloc) :
    (if rids.contains (markOne rid r).rid then { markOne rid r with jump_table_start := true }
     else markOne rid r)
      = (if (rid :: rids).contains r.rid then { r with jump_table_start := true } else r) := by
  have hrid : (markOne rid r).rid = r.rid := markOne_rid rid r
  by_cases h1 : (r.rid == rid) = true
  · have hm : markOne rid r = { r with jump_table_start := true } := by
      unfold markOne; rw [if_pos h1]
    have hc : ((rid :: rids).contains r.rid) = true := by
      rw [List.contains_cons, h1, Bool.true_or]
    rw [hm, if_pos hc]
    by_cases h2 : (rids.contains r.rid) = true
    · rw [hm] at hrid
      rw [if_pos (by rw [hrid]; exact h2)]
    · rw [hm] at hrid
      rw [if_neg (by rw [hrid]; exact h2)]
  · have h1' : (r.rid == rid) = false := by simpa using h1
    have hm : markOne rid r = r := by
      unfold markOne; rw [if_neg h1]
    have hc : ((rid :: rids).contains r.rid) = rids.contains r.rid := by
      rw [List.contains_cons, h1', Bool.false_or]
    rw [hm]
    by_cases h2 : (rids.contains r.rid) = true
    · rw [if_pos h2, if_pos (by rw [hc]; exact h2)]
    · rw [if_neg h2, if_neg (by rw [hc]; exact h2)]

lemma applyMarks_markRid (e : Elf) (rid : Nat) (rids : List Nat) :
    applyMarks (e.markRid rid) rids = applyMarks e (rid :: rids) := by
  unfold applyMarks Elf.markRid
  cases e with
  | mk secs rels =>
      simp only [List.map_map]
      congr 1
      apply List.map_congr_left
      intro r _
      simp only [Function.comp_apply]
      exact applyMarks_point rid rids r

lemma hopRid_markStep (e : Elf) (insn insn' : RInsn) :
    hopRid (markStep e insn) insn' = hopRid e insn' := by
  rw [markStep_eq]
  cases h : hopRid e insn with
  | none => rfl
  | some rid => exact hopRid_markRid e rid insn'

/-- **C6 (amended).** The anchor-marking pass marks exactly the relocs
reached by the one-hop chase from a qualifying `pcaddu12i` — qualifying
meaning: the instruction's own reloc targets a `.L`/`jumptable` symbol, the
hop reloc exists, and the hop reloc's target symbol name begins with `.L` —
and leaves every other reloc untouched (`hopRid` spells the conditions). -/
theorem arch_mark_func_jump_tables_spec (e : Elf) (insns : List RInsn) :
    arch_mark_func_jump_tables e insns = applyMarks e (insns.filterMap (hopRid e)) := by
  induction insns generalizing e with
  | nil => rw [arch_mark_func_jump_tables, List.foldl_nil, List.filterMap_nil, applyMarks_nil]
  | cons i rest ih =>
      rw [arch_mark_func_jump_tables, List.foldl_cons, List.filterMap_cons]
      have hstep := markStep_eq e i
      have hcollect : rest.filterMap (hopRid (markStep e i)) = rest.filterMap (hopRid e) := by
        apply List.filterMap_congr
        intro x _
        exact hopRid_markStep e i x
      cases h : hopRid e i with
      | none =>
          rw [h] at hstep
          have := ih (markStep e i)
          rw [arch_mark_func_jump_tables] at this
          rw [this, hcollect, hstep]
      | some rid =>
          rw [h] at hstep
          have := ih (markStep e i)
          rw [arch_mark_func_jump_tables] at this
          rw [this, hcollect, hstep, applyMarks_markRid]

/-- Reloc on the `pcaddu12i`, targeting local label `.Lx`. -/
def r61 : JReloc :=
  { rid := 1, rsec := 10, offset := 0, symName := ['.', 'L', 'x'], symBind := .localB,
    symType := .object, symSec := 2, symOff := 0, jump_table_start := false }

/-- The reloc reached by one hop, whose target symbol is named `bar`. -/
def r62 : JReloc :=
  { rid := 2, rsec := 11, offset := 0, symName := ['b', 'a', 'r'], symBind := .localB,
    symType := .func, symSec := 1, symOff := 8, jump_table_start := false }

/-- Concrete ELF refuting C6 as stated: insn at (sec 1, off 0) is a
`pcaddu12i` whose reloc `r61` targets `.Lx`; the one-hop reloc `r62` exists
but its target symbol is named `bar`, so the code does not mark it. -/
def e6 : Elf :=
  { sections := [{ sid := 1, reloc := some 10 }, { sid := 2, reloc := some 11 }],
    relocs := [r61, r62] }

def insns6 : List RInsn := [{ sec := 1, off := 0, code := .pcaddu12i 13 0, pf := none }]

/-- **C6 counterexample.** The `pcaddu12i` qualifies under the claim's
conditions (its reloc exists and targets a `.L` symbol, and the one-hop
reloc exists), yet the pass leaves the hop reloc unmarked, because the hop
reloc's own target name does not begin with `.L`. -/
theorem arch_mark_func_jump_tables_c6_counterexample :
    (find_reloc_by_dest e6 1 0 = some r61 ∧
      nameStarts dotL r61.symName = true ∧
      find_reloc_by_dest e6 r61.symSec r61.symOff = some r62) ∧
    ∀ r ∈ (arch_mark_func_jump_tables e6 insns6).relocs,
      r.rid = 2 → r.jump_table_start = false := by
  constructor
  · exact ⟨by decide, by decide, by decide⟩
  · decide

/-! ## The orbit resolver (`arch_dynamic_add_jump_table_alts`, `special.c:95`)

The resolver is modelled as a pure function from the objtool file, the
orbit (head = the branch) and the branch instruction to an output record
collecting the C function's effects: return value, assignment to
`insn->type`, `insn->jump_dest`, `insn->_jump_table`, the alternatives
prepended to `insn->alts` (starting from an empty list), and the warnings
emitted (`WARN_FUNC` carries a `(section, offset)` tag; plain `WARN` does
not).  `ret = 2` marks a path where the C program dereferences
uninitialised or sentinel memory; no theorem relies on such a path. -/

structure OFile where
  insns : List RInsn
  elf : Elf
deriving DecidableEq, Repr

/-- `find_insn`: the instruction hash, keyed by (section, offset). -/
def find_insn (f : OFile) (sec off : Nat) : Option RInsn :=
  f.insns.find? (fun i => i.sec == sec && i.off == off)

/-- The only `insn->type` value the resolver assigns. -/
inductive IType where
  | insnReturn
deriving DecidableEq, Repr

structure ROut where
  ret : Nat
  typ : Option IType
  jump_dest : Option RInsn
  jtable : Option Nat
  alts : List RInsn
  warns : List (Nat × Nat)
  plainWarn : Bool
deriving DecidableEq, Repr

/-- `WARN_FUNC(...); return 1;` -/
def outWarn (sec off : Nat) (t : Option IType) : ROut :=
  { ret := 1, typ := t, jump_dest := none, jtable := none, alts := [],
    warns := [(sec, off)], plainWarn := false }

/-- `insn->type = INSN_RETURN; return 0;` -/
def outReturn : ROut :=
  { ret := 0, typ := some .insnReturn, jump_dest := none, jtable := none,
    alts := [], warns := [], plainWarn := false }

/-- `$sp` (`CFI_SP`). -/
def CFI_SP : Nat := 3

/-- `dynamic_add_jump_table` (`special.c:42`): walk the reloc list from the
anchor, stopping at an end-of-table mark on a non-anchor entry, at an entry
targeting the parent function's own entry point, at an entry that does not
resolve to an instruction, or at one resolving outside the parent function;
otherwise prepend the destination to the alternatives. -/
def dynamic_add_jump_table (f : OFile) (pfunc : PFunc) (anchor : Nat) :
    List JReloc → List RInsn → List RInsn
  | [], alts => alts
  | r :: rest, alts =>
      if r.rid != anchor && r.jump_table_start then alts
      else if r.symSec == pfunc.sec && r.symOff == pfunc.off then alts
      else
        match find_insn f r.symSec r.symOff with
        | none => alts
        | some d =>
            match d.pf with
            | none => alts
            | some q =>
                if q.sid != pfunc.sid then alts
                else dynamic_add_jump_table f pfunc anchor rest (d :: alts)

/-- The per-section reloc list from the entry `rr` onward
(`list_for_each_entry_from(reloc, &table->sec->reloc_list, list)`). -/
def relocListFrom (e : Elf) (rr : JReloc) : List JReloc :=
  (e.relocs.filter (fun x => x.rsec == rr.rsec)).dropWhile (fun x => x.rid != rr.rid)

/-- Result of the Phase A loop: either the function returned (`done`), or
control fell through to Phase B carrying the current `insn->type`
assignment and loop counter `i`. -/
inductive PhaseARes where
  | done (out : ROut)
  | fall (t : Option IType) (i : Nat)
deriving DecidableEq, Repr

/-- Phase A (`special.c:133`): unwind `lu52i.d; lu32i.d; ori; lu12i.w`
threaded through the `jirl` source register from the orbit head. -/
def phaseA (f : OFile) (destReg : Nat) : List RInsn → Nat → Option IType → PhaseARes
  | [], i, t => .fall t i
  | o :: rest, i, t =>
      match i with
      | 0 => phaseA f destReg rest 1 t
      | 1 =>
          match o.code with
          | .lu52id rd rj _ =>
              if rj = destReg ∧ rd = destReg then phaseA f destReg rest 2 t
              else .fall t 5
          | _ => .fall t 5
      | 2 =>
          match o.code with
          | .lu32id rd _ =>
              if rd = destReg then phaseA f destReg rest 3 t else .fall t 5
          | _ => .fall t 5
      | 3 =>
          match o.code with
          | .ori rd rj _ =>
              if rj = destReg ∧ rd = destReg then phaseA f destReg rest 4 t
              else .fall t 5
          | _ => .fall t 5
      | 4 =>
          match o.code with
          | .lu12iw rd _ =>
              if rd = destReg then
                match find_reloc_by_dest f.elf o.sec o.off with
                | none => .done (outWarn o.sec o.off t)
                | some rl =>
                    match find_insn f rl.symSec rl.symOff with
                    | none => phaseA f destReg rest 5 (some .insnReturn)
                    | some n =>
                        .done { ret := 0, typ := t, jump_dest := some n, jtable := none,
                                alts := [], warns := [], plainWarn := false }
              else .fall t 5
          | _ => .fall t 5
      | _ => .fall t i

/-- Phase B loop state: tracked register, stage, pending stack offset,
loop counter, and the `lu52id`/`ldptrd`/`ldd` position flags. -/
structure BState where
  destReg : Nat
  stage : Nat
  instack : Int
  i : Nat
  lu52idFlag : Nat
  ldptrdFlag : Nat
  lddFlag : Nat
deriving DecidableEq, Repr

/-- The `st.d`/`stptr.d` view used by the stack mini-state-machine
(fields `(rd, rj, simmediate)`). -/
def stImm? (c : Code) : Option (Nat × Nat × Int) :=
  match c with
  | .std rd rj imm => some (rd, rj, imm)
  | .stptrd rd rj imm => some (rd, rj, imm)
  | _ => none

/-- The `ld.d`/`ldptr.d` view used by the stack mini-state-machine. -/
def ldImm? (c : Code) : Option (Nat × Nat × Int) :=
  match c with
  | .ldd rd rj imm => some (rd, rj, imm)
  | .ldptrd rd rj imm => some (rd, rj, imm)
  | _ => none

/-- The Stage-1 anchor block shared by the `pcaddu12i` and `lu12i.w` arms
(`special.c:251` and `special.c:284`): chase the reloc; `.L`/`jumptable`
targets name the table (one further hop anchors it and jump-table expansion
runs); local-object or global targets classify as return; anything else is
a plain `WARN` and an error. -/
def anchorBlock (f : OFile) (branch : RInsn) (t : Option IType) (o : RInsn) : ROut :=
  match find_reloc_by_dest f.elf o.sec o.off with
  | none => outWarn o.sec o.off t
  | some reloc =>
      if nameStarts dotL reloc.symName || nameStarts jumptableName reloc.symName then
        match find_reloc_by_dest f.elf reloc.symSec reloc.symOff with
        | none => outWarn o.sec o.off t
        | some rr =>
            match branch.pf with
            | none =>
                -- `dynamic_add_jump_table` would dereference a NULL `insn_func`
                { ret := 2, typ := t, jump_dest := none, jtable := some rr.rid,
                  alts := [], warns := [], plainWarn := false }
            | some pf =>
                { ret := 0, typ := t, jump_dest := none, jtable := some rr.rid,
                  alts := dynamic_add_jump_table f pf rr.rid (relocListFrom f.elf rr) [],
                  warns := [], plainWarn := false }
      else if reloc.symBind = .localB ∧ reloc.symType = .object then
        { outReturn with typ := some .insnReturn }
      else if reloc.symBind = .globalB then
        { outReturn with typ := some .insnReturn }
      else
        { ret := 1, typ := t, jump_dest := none, jtable := none, alts := [],
          warns := [], plainWarn := true }

/-- One Phase-B loop action: continue with a new state, or return. -/
inductive BAct where
  | cont (st : BState)
  | stop (out : ROut)
deriving DecidableEq, Repr

/-- The `switch (stage)` body of Phase B for one orbit entry
(`special.c:199`), as the action it performs. -/
def stageSwitch (f : OFile) (branch : RInsn) (t : Option IType)
    (o : RInsn) (st : BState) : BAct :=
  match st.stage with
  | 0 =>
      match o.code with
      | .alsld rd _ rk _ =>
          if rd = st.destReg then .cont { st with destReg := rk, stage := 1 }
          else .cont st
      | .ldptrd rd rj _ =>
          if rd = st.destReg then .cont { st with destReg := rj, ldptrdFlag := st.i }
          else .cont st
      | .ldd rd rj _ =>
          if rd = st.destReg then .cont { st with destReg := rj, lddFlag := st.i }
          else .cont st
      | .ldxd rd rj _ =>
          if rd = st.destReg then .cont { st with destReg := rj, stage := 1 }
          else .cont st
      | .addd rd rj _ =>
          if (st.ldptrdFlag ≠ 0 ∨ st.lddFlag ≠ 0) ∧ rd = st.destReg then
            .cont { st with destReg := rj, stage := 1 }
          else .cont st
      | .lu52id rd rj _ =>
          if rj = st.destReg ∧ rd = st.destReg then .stop outReturn
          else .cont st
      | .addid rd _ _ =>
          if rd = st.destReg then .stop outReturn
          else .cont st
      | _ => .cont st
  | 1 =>
      match o.code with
      | .pcaddu12i rd _ =>
          if st.lu52idFlag = 0 ∧ rd = st.destReg then .stop (anchorBlock f branch t o)
          else .cont st
      | .lu12iw rd _ =>
          if st.lu52idFlag ≠ 0 ∧ rd = st.destReg then .stop (anchorBlock f branch t o)
          else .cont st
      | .addid rd rj _ =>
          if rd = st.destReg then .cont { st with destReg := rj }
          else .cont st
      | .lu52id rd rj _ =>
          if rj = st.destReg ∧ rd = st.destReg then .cont { st with lu52idFlag := st.i }
          else .cont st
      | _ => .cont st
  | _ => .stop (outWarn o.sec o.off t)

/-- Phase B (`special.c:182`): backward dataflow over the orbit with the
stack-reload mini-state-machine and the two stages of §4.3. -/
def phaseB (f : OFile) (branch : RInsn) (t : Option IType) :
    List RInsn → BState → ROut
  | [], _ => outReturn
  | o :: rest, st0 =>
      let st := { st0 with i := st0.i + 1 }
      if st.instack ≠ 0 then
        match stImm? o.code with
        | some (rd, rj, imm) =>
            if imm = st.instack ∧ rj = CFI_SP then
              phaseB f branch t rest { st with destReg := rd, instack := 0 }
            else phaseB f branch t rest st
        | none => phaseB f branch t rest st
      else
        match ldImm? o.code with
        | some (rd, rj, imm) =>
            if rd = st.destReg ∧ rj = CFI_SP then
              phaseB f branch t rest { st with instack := imm }
            else
              match stageSwitch f branch t o st with
              | .cont st' => phaseB f branch t rest st'
              | .stop out => out
        | none =>
            match stageSwitch f branch t o st with
            | .cont st' => phaseB f branch t rest st'
            | .stop out => out

/-- The body of the resolver after the sanity checks: require `jirl`,
run Phase A, fall through to Phase B. -/
def resolveBody (f : OFile) (orbit : List RInsn) (insn : RInsn) : ROut :=
  match insn.code with
  | .jirl _ rj _ =>
      match phaseA f rj orbit 0 none with
      | .done out => out
      | .fall t i =>
          phaseB f insn t orbit
            { destReg := rj, stage := 0, instack := 0, i := i,
              lu52idFlag := 0, ldptrdFlag := 0, lddFlag := 0 }
  | _ => outWarn insn.sec insn.off none

/-- `arch_dynamic_add_jump_table_alts` (`special.c:95`). -/
def arch_dynamic_add_jump_table_alts (f : OFile) (orbit : List RInsn) (insn : RInsn) : ROut :=
  match orbit with
  | [] => outWarn insn.sec insn.off none
  | head :: rest =>
      if head ≠ insn then outWarn insn.sec insn.off none
      else
        match rest with
        | [] =>
            -- `list_next_entry` would read the list head sentinel as an instruction
            { ret := 2, typ := none, jump_dest := none, jtable := none, alts := [],
              warns := [], plainWarn := false }
        | n :: _ =>
            match n.code with
            | .addid rd rj _ =>
                if rj = CFI_SP ∧ rd = CFI_SP then outReturn
                else resolveBody f orbit insn
            | _ => resolveBody f orbit insn

/-! ## C1: jump-table expansion -/

/-- The stop conditions of the expansion walk, in the code's order:
end-of-table mark on a non-anchor entry; entry targeting the parent
function's own entry point; no instruction at the target; target
instruction outside the parent function. -/
def jtStop (f : OFile) (pfunc : PFunc) (anchor : Nat) (r : JReloc) : Bool :=
  (r.rid != anchor && r.jump_table_start) ||
  (r.symSec == pfunc.sec && r.symOff == pfunc.off) ||
  (match find_insn f r.symSec r.symOff with
   | none => true
   | some d =>
       match d.pf with
       | none => true
       | some q => q.sid != pfunc.sid)

/-- The S4 scenario: parent function (sid 1) at section 1 offset 0 with
instructions at 0/4/8/12, a contiguous next function (sid 2) entered at
offset 16. -/
def s4pfunc : PFunc := { sid := 1, sec := 1, off := 0 }

def s4next : PFunc := { sid := 2, sec := 1, off := 16 }

def s4insn (o : Nat) (p : PFunc) : RInsn :=
  { sec := 1, off := o, code := .otherInsn, pf := some p }

def s4file : OFile :=
  { insns := [s4insn 0 s4pfunc, s4insn 4 s4pfunc, s4insn 8 s4pfunc,
              s4insn 12 s4pfunc, s4insn 16 s4next],
    elf := { sections := [], relocs := [] } }

/-- A `.quad` entry of the S4 jump table; the anchor (rid 100) carries the
`jump_table_start` mark placed by the §4.4 pass. -/
def s4reloc (rid off : Nat) : JReloc :=
  { rid := rid, rsec := 20, offset := 8 * (rid - 100), symName := [],
    symBind := .localB, symType := .notype, symSec := 1, symOff := off,
    jump_table_start := rid == 100 }

def s4relocs : List JReloc := [s4reloc 100 4, s4reloc 101 8, s4reloc 102 12, s4reloc 103 16]

/-- **C1.** Jump-table expansion walks the reloc list from the anchor in
order and adds one alternative per entry of the longest prefix free of stop
conditions (`jtStop`, checked in the code's tie-break order), the added
alternatives being exactly the instructions the usable entries resolve to;
in the S4 scenario (three in-function entries, a fourth entering the next
function) exactly three alternatives are gained. -/
theorem dynamic_add_jump_table_spec :
    (∀ (f : OFile) (pfunc : PFunc) (anchor : Nat) (relocs : List JReloc) (alts : List RInsn),
      dynamic_add_jump_table f pfunc anchor relocs alts
        = ((relocs.takeWhile (fun r => !jtStop f pfunc anchor r)).filterMap
            (fun r => find_insn f r.symSec r.symOff)).reverse ++ alts)
    ∧ (dynamic_add_jump_table s4file s4pfunc 100 s4relocs []).length = 3 := by
  constructor
  · intro f pfunc anchor relocs
    induction relocs with
    | nil => intro alts; simp [dynamic_add_jump_table]
    | cons r rest ih =>
        intro alts
        by_cases hc1 : (r.rid != anchor && r.jump_table_start) = true
        · have hstop : jtStop f pfunc anchor r = true := by
            simp [jtStop, hc1]
          simp [dynamic_add_jump_table, hc1, List.takeWhile_cons, hstop]
        · by_cases hc2 : (r.symSec == pfunc.sec && r.symOff == pfunc.off) = true
          · have hstop : jtStop f pfunc anchor r = true := by
              simp [jtStop, hc2]
            simp [dynamic_add_jump_table, hc1, hc2, List.takeWhile_cons, hstop]
          · cases hfi : find_insn f r.symSec r.symOff with
            | none =>
                have hstop : jtStop f pfunc anchor r = true := by
                  simp [jtStop, hfi]
                simp [dynamic_add_jump_table, hc1, hc2, hfi, List.takeWhile_cons, hstop]
            | some d =>
                cases hpf : d.pf with
                | none =>
                    have hstop : jtStop f pfunc anchor r = true := by
                      simp [jtStop, hfi, hpf]
                    simp [dynamic_add_jump_table, hc1, hc2, hfi, hpf,
                      List.takeWhile_cons, hstop]
                | some q =>
                    by_cases hq : (q.sid != pfunc.sid) = true
                    · have hstop : jtStop f pfunc anchor r = true := by
                        simp [jtStop, hfi, hpf, hq]
                      simp [dynamic_add_jump_table, hc1, hc2, hfi, hpf, hq,
                        List.takeWhile_cons, hstop]
                    · have hstop : jtStop f pfunc anchor r = false := by
                        simp only [Bool.not_eq_true] at hc1 hc2 hq
                        simp [jtStop, hfi, hpf, hc1, hc2, hq]
                      have hq' : (q.sid != pfunc.sid) = false := by
                        simpa using hq
                      simp only [dynamic_add_jump_table, hc1, hc2, hfi, hpf, hq,
                        List.takeWhile_cons, hstop, Bool.not_false, if_true, if_false,
                        Bool.false_eq_true, List.filterMap_cons]
                      rw [ih (d :: alts)]
                      simp [List.reverse_cons, List.append_assoc]
  · decide

/-! ## C10: early `addi.d $sp, $sp` check -/

/-- **C10.** Before any Phase A/B matching, when the orbit entry right
after the branch is `addi.d` with `rd = rj = $sp`, the resolver classifies
the branch as a return and succeeds, whatever the rest of the orbit is. -/
theorem sp_addid_early_return (f : OFile) (insn n : RInsn) (rest : List RInsn) (imm : Int)
    (hn : n.code = .addid CFI_SP CFI_SP imm) :
    arch_dynamic_add_jump_table_alts f (insn :: n :: rest) insn = outReturn ∧
    outReturn.ret = 0 ∧ outReturn.typ = some IType.insnReturn := by
  refine ⟨?_, rfl, rfl⟩
  simp [arch_dynamic_add_jump_table_alts, hn]

/-- Witness for C10. -/
theorem sp_addid_early_return_witness :
    arch_dynamic_add_jump_table_alts s4file
      [s4insn 0 s4pfunc, { s4insn 4 s4pfunc with code := .addid 3 3 16 }] (s4insn 0 s4pfunc)
      = outReturn :=
  (sp_addid_early_return s4file (s4insn 0 s4pfunc)
    { s4insn 4 s4pfunc with code := .addid 3 3 16 } [] 16 rfl).1

/-! ## C2/C5: Phase A evaluation -/

lemma phaseA_i5 (f : OFile) (dr : Nat) (l : List RInsn) (t : Option IType) :
    phaseA f dr l 5 t = .fall t 5 := by
  cases l <;> rfl

/-- Phase A on an orbit whose four entries after the head match the
`lu52i.d; lu32i.d; ori; lu12i.w` sequence threaded through `dr`. -/
lemma phaseA_on_match (f : OFile) (dr : Nat) (insn o1 o2 o3 o4 : RInsn) (rest : List RInsn)
    (i1 i2 i4 : Int) (i3 : Nat)
    (h1 : o1.code = .lu52id dr dr i1) (h2 : o2.code = .lu32id dr i2)
    (h3 : o3.code = .ori dr dr i3) (h4 : o4.code = .lu12iw dr i4) :
    phaseA f dr (insn :: o1 :: o2 :: o3 :: o4 :: rest) 0 none =
      (match find_reloc_by_dest f.elf o4.sec o4.off with
       | none => .done (outWarn o4.sec o4.off none)
       | some rl =>
           match find_insn f rl.symSec rl.symOff with
           | none => .fall (some .insnReturn) 5
           | some n => .done { ret := 0, typ := none, jump_dest := some n, jtable := none,
                               alts := [], warns := [], plainWarn := false }) := by
  simp only [phaseA, h1, h2, h3, h4, and_self, if_true, if_pos]
  cases hr : find_reloc_by_dest f.elf o4.sec o4.off with
  | none => simp
  | some rl =>
      cases hi : find_insn f rl.symSec rl.symOff with
      | none => simp [phaseA_i5]
      | some n => simp [hi]

/-- The exact-match condition of Phase A. -/
def phaseASeq (dr : Nat) (o1 o2 o3 o4 : RInsn) : Prop :=
  (∃ i1 : Int, o1.code = .lu52id dr dr i1) ∧ (∃ i2 : Int, o2.code = .lu32id dr i2) ∧
  (∃ i3 : Nat, o3.code = .ori dr dr i3) ∧ (∃ i4 : Int, o4.code = .lu12iw dr i4)

/-- Any deviation from the sequence makes Phase A fall through with no
classification and `i = 5`. -/
lemma phaseA_deviate (f : OFile) (dr : Nat) (insn o1 o2 o3 o4 : RInsn) (rest : List RInsn)
    (hdev : ¬ phaseASeq dr o1 o2 o3 o4) :
    phaseA f dr (insn :: o1 :: o2 :: o3 :: o4 :: rest) 0 none = .fall none 5 := by
  by_cases H1 : ∃ i1 : Int, o1.code = .lu52id dr dr i1
  · obtain ⟨i1, h1⟩ := H1
    by_cases H2 : ∃ i2 : Int, o2.code = .lu32id dr i2
    · obtain ⟨i2, h2⟩ := H2
      by_cases H3 : ∃ i3 : Nat, o3.code = .ori dr dr i3
      · obtain ⟨i3, h3⟩ := H3
        by_cases H4 : ∃ i4 : Int, o4.code = .lu12iw dr i4
        · exact absurd ⟨⟨i1, h1⟩, ⟨i2, h2⟩, ⟨i3, h3⟩, H4⟩ hdev
        · simp only [phaseA, h1, h2, h3, and_self, if_true, if_pos]
          cases hc : o4.code <;> simp [phaseA, hc]
          · rename_i rd imm
            intro hrd
            exact absurd ⟨imm, by rw [hc, hrd]⟩ H4
      · simp only [phaseA, h1, h2, and_self, if_true, if_pos]
        cases hc : o3.code <;> simp [phaseA, hc]
        · rename_i rd rj imm
          intro hrj hrd
          exact absurd ⟨imm, by rw [hc, hrd, hrj]⟩ H3
    · simp only [phaseA, h1, and_self, if_true, if_pos]
      cases hc : o2.code <;> simp [phaseA, hc]
      · rename_i rd imm
        intro hrd
        exact absurd ⟨imm, by rw [hc, hrd]⟩ H2
  · simp only [phaseA]
    cases hc : o1.code <;> simp [phaseA, hc]
    · rename_i rd rj imm
      intro hrj hrd
      exact absurd ⟨imm, by rw [hc, hrd, hrj]⟩ H1

/-- Phase B classifies as return right at the `lu52i.d` following the head
(the `~ lu52i.d` arm of Stage 0). -/
lemma phaseB_stops_at_lu52id (f : OFile) (insn o1 : RInsn) (rest : List RInsn)
    (t : Option IType) (st : BState) (rd rj : Nat) (jimm i1 : Int)
    (hi : insn.code = .jirl rd rj jimm) (h1 : o1.code = .lu52id st.destReg st.destReg i1)
    (hstack : st.instack = 0) (hstage : st.stage = 0) :
    phaseB f insn t (insn :: o1 :: rest) st = outReturn := by
  simp only [phaseB, hi, stImm?, ldImm?, hstack, stageSwitch, hstage]
  simp only [ne_eq, not_true_eq_false, if_false, reduceCtorEq]
  simp [phaseB, h1, stImm?, ldImm?, stageSwitch, hstack, hstage]

/-- **C2.** Phase A of the resolver: with the head a `jirl` and the next
four orbit entries exactly `lu52i.d rj,rj;  lu32i.d rj;  ori rj,rj;
lu12i.w rj` threaded through the `jirl` source `rj`: (a) when the
`lu12i.w`'s reloc target resolves to an instruction, `jump_dest` is set to
it and the call succeeds with no classification; (b) when it does not
resolve, the branch ends classified as a return with success; (c) any
deviation from the sequence makes Phase A fall through to Phase B with no
classification. -/
theorem phaseA_resolver_spec (f : OFile) (insn o1 o2 o3 o4 : RInsn) (rest : List RInsn)
    (rd rj : Nat) (jimm : Int)
    (hj : insn.code = .jirl rd rj jimm) :
    (∀ (i1 i2 i4 : Int) (i3 : Nat) (rl : JReloc) (n : RInsn),
      o1.code = .lu52id rj rj i1 → o2.code = .lu32id rj i2 → o3.code = .ori rj rj i3 →
      o4.code = .lu12iw rj i4 →
      find_reloc_by_dest f.elf o4.sec o4.off = some rl →
      find_insn f rl.symSec rl.symOff = some n →
      arch_dynamic_add_jump_table_alts f (insn :: o1 :: o2 :: o3 :: o4 :: rest) insn
        = { ret := 0, typ := none, jump_dest := some n, jtable := none,
            alts := [], warns := [], plainWarn := false }) ∧
    (∀ (i1 i2 i4 : Int) (i3 : Nat) (rl : JReloc),
      o1.code = .lu52id rj rj i1 → o2.code = .lu32id rj i2 → o3.code = .ori rj rj i3 →
      o4.code = .lu12iw rj i4 →
      find_reloc_by_dest f.elf o4.sec o4.off = some rl →
      find_insn f rl.symSec rl.symOff = none →
      arch_dynamic_add_jump_table_alts f (insn :: o1 :: o2 :: o3 :: o4 :: rest) insn
        = outReturn) ∧
    (¬ phaseASeq rj o1 o2 o3 o4 →
      (∀ imm : Int, o1.code ≠ .addid CFI_SP CFI_SP imm) →
      arch_dynamic_add_jump_table_alts f (insn :: o1 :: o2 :: o3 :: o4 :: rest) insn
        = phaseB f insn none (insn :: o1 :: o2 :: o3 :: o4 :: rest)
            { destReg := rj, stage := 0, instack := 0, i := 5,
              lu52idFlag := 0, ldptrdFlag := 0, lddFlag := 0 }) := by
  refine ⟨?_, ?_, ?_⟩
  · intro i1 i2 i4 i3 rl n h1 h2 h3 h4 hrl hn
    simp only [arch_dynamic_add_jump_table_alts, h1, ne_eq, not_true_eq_false, if_false,
      reduceCtorEq]
    simp only [resolveBody, hj]
    rw [phaseA_on_match f rj insn o1 o2 o3 o4 rest i1 i2 i4 i3 h1 h2 h3 h4]
    simp [hrl, hn]
  · intro i1 i2 i4 i3 rl h1 h2 h3 h4 hrl hn
    simp only [arch_dynamic_add_jump_table_alts, h1, ne_eq, not_true_eq_false, if_false,
      reduceCtorEq]
    simp only [resolveBody, hj]
    rw [phaseA_on_match f rj insn o1 o2 o3 o4 rest i1 i2 i4 i3 h1 h2 h3 h4]
    simp only [hrl, hn]
    exact phaseB_stops_at_lu52id f insn o1 (o2 :: o3 :: o4 :: rest) (some .insnReturn)
      _ rd rj jimm i1 hj h1 rfl rfl
  · intro hdev hsp
    have hbody : arch_dynamic_add_jump_table_alts f (insn :: o1 :: o2 :: o3 :: o4 :: rest) insn
        = resolveBody f (insn :: o1 :: o2 :: o3 :: o4 :: rest) insn := by
      simp only [arch_dynamic_add_jump_table_alts, ne_eq, not_true_eq_false, if_false]
      cases hc : o1.code <;> simp [hc]
      · rename_i crd crj cimm
        intro hrj hrd
        exact absurd (by rw [hc, hrd, hrj]) (hsp cimm)
    rw [hbody]
    simp only [resolveBody, hj]
    rw [phaseA_deviate f rj insn o1 o2 o3 o4 rest hdev]

/-- Concrete Phase-A scenario: a `jirl $zero, $t0` whose address is built by
the four-instruction `la.abs` sequence; the `lu12i.w` at (1, 16) carries a
reloc to (2, 0) where an instruction lives. -/
def c2insn : RInsn := { sec := 1, off := 0, code := .jirl 0 12 0, pf := none }

def c2o1 : RInsn := { sec := 1, off := 4, code := .lu52id 12 12 5, pf := none }

def c2o2 : RInsn := { sec := 1, off := 8, code := .lu32id 12 7, pf := none }

def c2o3 : RInsn := { sec := 1, off := 12, code := .ori 12 12 3, pf := none }

def c2o4 : RInsn := { sec := 1, off := 16, code := .lu12iw 12 9, pf := none }

def c2target : RInsn := { sec := 2, off := 0, code := .otherInsn, pf := some s4pfunc }

def c2rl : JReloc :=
  { rid := 1, rsec := 10, offset := 16, symName := ['f'], symBind := .globalB,
    symType := .func, symSec := 2, symOff := 0, jump_table_start := false }

def c2file : OFile :=
  { insns := [c2target],
    elf := { sections := [{ sid := 1, reloc := some 10 }], relocs := [c2rl] } }

/-- Witness for C2 (case (a)) on the concrete scenario. -/
theorem phaseA_resolver_spec_witness :
    arch_dynamic_add_jump_table_alts c2file [c2insn, c2o1, c2o2, c2o3, c2o4] c2insn
      = { ret := 0, typ := none, jump_dest := some c2target, jtable := none,
          alts := [], warns := [], plainWarn := false } :=
  (phaseA_resolver_spec c2file c2insn c2o1 c2o2 c2o3 c2o4 [] 0 12 0 rfl).1
    5 7 9 3 c2rl c2target rfl rfl rfl rfl (by decide) (by decide)

/-! ## C5: diagnostic conditions -/

/-- **C5 (amended).** On the diagnostic conditions — empty orbit at the
branch, or a matched Phase-A `lu12i.w` with no relocation — the resolver
emits a warning tagged with section and offset and returns the error code 1
without classifying the branch (it does not mark it as a return). -/
theorem resolver_diagnostic_spec (f : OFile) (insn : RInsn) :
    (arch_dynamic_add_jump_table_alts f [] insn = outWarn insn.sec insn.off none) ∧
    (∀ (s o : Nat) (t : Option IType),
      (outWarn s o t).ret = 1 ∧ (outWarn s o t).warns = [(s, o)] ∧ (outWarn s o t).typ = t) ∧
    (∀ (o1 o2 o3 o4 : RInsn) (rest : List RInsn) (rd rj : Nat) (jimm i1 i2 i4 : Int) (i3 : Nat),
      insn.code = .jirl rd rj jimm →
      o1.code = .lu52id rj rj i1 → o2.code = .lu32id rj i2 → o3.code = .ori rj rj i3 →
      o4.code = .lu12iw rj i4 →
      find_reloc_by_dest f.elf o4.sec o4.off = none →
      arch_dynamic_add_jump_table_alts f (insn :: o1 :: o2 :: o3 :: o4 :: rest) insn
        = outWarn o4.sec o4.off none) := by
  refine ⟨rfl, fun s o t => ⟨rfl, rfl, rfl⟩, ?_⟩
  intro o1 o2 o3 o4 rest rd rj jimm i1 i2 i4 i3 hj h1 h2 h3 h4 hrl
  simp only [arch_dynamic_add_jump_table_alts, h1, ne_eq, not_true_eq_false, if_false,
    reduceCtorEq]
  simp only [resolveBody, hj]
  rw [phaseA_on_match f rj insn o1 o2 o3 o4 rest i1 i2 i4 i3 h1 h2 h3 h4]
  simp [hrl]

/-- ELF for the missing-reloc diagnostic: same instructions as the C2
scenario but no relocation anywhere. -/
def c5file : OFile :=
  { insns := [c2target],
    elf := { sections := [{ sid := 1, reloc := some 10 }], relocs := [] } }

/-- Witness for C5 (amended): both diagnostic conditions at concrete
inputs. -/
theorem resolver_diagnostic_spec_witness :
    arch_dynamic_add_jump_table_alts c5file [] c2insn = outWarn 1 0 none ∧
    arch_dynamic_add_jump_table_alts c5file [c2insn, c2o1, c2o2, c2o3, c2o4] c2insn
      = outWarn 1 16 none := by
  constructor
  · exact (resolver_diagnostic_spec c5file c2insn).1
  · exact (resolver_diagnostic_spec c5file c2insn).2.2 c2o1 c2o2 c2o3 c2o4 [] 0 12 0
      5 7 9 3 rfl rfl rfl rfl rfl (by decide)

/-- **C5 counterexample.** At the empty-orbit diagnostic the resolver does
not complete successfully with the branch marked as a return: it returns 1
and leaves the classification unset (the claim says it continues with
`INSN_RETURN`). -/
theorem resolver_diagnostic_c5_counterexample :
    (arch_dynamic_add_jump_table_alts c5file [] c2insn).ret = 1 ∧
    (arch_dynamic_add_jump_table_alts c5file [] c2insn).typ = none ∧
    (arch_dynamic_add_jump_table_alts c5file [] c2insn).warns = [(1, 0)] := by
  exact ⟨rfl, rfl, rfl⟩

/-! ## Symbols and the per-section interval tree (`elf.c`)

A `Sym` carries the fields of `struct symbol` the claims touch.  `sid` is
the node identity (the C pointer); `idx` is the symbol-table index;
`pfunc`/`cfunc` hold the `sid` of the linked symbol. -/

structure Sym where
  sid : Nat
  name : CName
  typ : SymType
  bind : SymBind
  sec : Nat
  offset : Nat
  len : Nat
  idx : Nat
  pfunc : Option Nat
  cfunc : Option Nat
  aliasSym : Option Nat := none
deriving DecidableEq, Repr

/-- The red-black tree of a section's symbols, as a plain binary search
tree ordered by `offset` (rotations preserve the in-order traversal, which
is all the lookups depend on). -/
inductive SymTree where
  | leaf
  | node (l : SymTree) (s : Sym) (r : SymTree)
deriving DecidableEq, Repr

def SymTree.inorder : SymTree → List Sym
  | .leaf => []
  | .node l s r => l.inorder ++ s :: r.inorder

/-- `s` contains `off`: `s.offset ≤ off < s.offset + s.len`. -/
def containsOff (s : Sym) (off : Nat) : Prop :=
  s.offset ≤ off ∧ off < s.offset + s.len

instance (s : Sym) (off : Nat) : Decidable (containsOff s off) := by
  unfold containsOff; infer_instance

/-- `rb_find` driven by `symbol_hole_by_offset` (`elf.c:85`): descend the
tree; on `key < offset` go left; on `key ≥ offset + len` record the node in
`sh->sym` (unless it is an `STT_SECTION` symbol) and go right; otherwise
the node contains the key. -/
def rbFindHole : SymTree → Nat → Option Sym → (Bool × Option Sym)
  | .leaf, _, h => (false, h)
  | .node l s r, key, h =>
      if key < s.offset then rbFindHole l key h
      else if s.offset + s.len ≤ key then
        rbFindHole r key (if s.typ = .sect then h else some s)
      else (true, h)

/-- `rb_next`: the in-order successor of `s` in the tree, read off the
in-order traversal. -/
def nextInorder (l : List Sym) (s : Sym) : Option Sym :=
  ((l.dropWhile (fun x => x != s)).drop 1).head?

/-- `find_symbol_hole_containing` (`elf.c:181`). -/
def find_symbol_hole_containing (t : SymTree) (off : Nat) : Int :=
  match rbFindHole t off none with
  | (true, _) => 0
  | (false, none) => 0
  | (false, some s) =>
      match nextInorder t.inorder s with
      | none => -1
      | some s' => (s'.offset : Int) - (off : Int)

/-- Non-overlap order on symbols: `a` ends at or before `b` begins. -/
def symR (a b : Sym) : Prop := a.offset + a.len ≤ b.offset

instance : DecidableRel symR := fun a b => by unfold symR; infer_instance

/-- The symbols ending at or before `off`, in traversal order. -/
def holeA (t : SymTree) (off : Nat) : List Sym :=
  t.inorder.filter (fun s => decide (s.offset + s.len ≤ off))

/-- The symbols starting after `off`, in traversal order. -/
def holeB (t : SymTree) (off : Nat) : List Sym :=
  t.inorder.filter (fun s => decide (off < s.offset))

lemma pairwise_node {l r : SymTree} {s : Sym}
    (h : List.Pairwise symR (SymTree.inorder (.node l s r))) :
    List.Pairwise symR l.inorder ∧ List.Pairwise symR r.inorder ∧
    (∀ x ∈ l.inorder, symR x s) ∧ (∀ y ∈ r.inorder, symR s y) ∧
    (∀ x ∈ l.inorder, ∀ y ∈ r.inorder, symR x y) := by
  rw [SymTree.inorder, List.pairwise_append] at h
  obtain ⟨h1, h2, h3⟩ := h
  rw [List.pairwise_cons] at h2
  exact ⟨h1, h2.2, fun x hx => h3 x hx s (List.mem_cons_self _ _),
    h2.1, fun x hx y hy => h3 x hx y (List.mem_cons_of_mem _ hy)⟩

/-- In the containment case the search finds a containing node. -/
lemma rbFindHole_found (off : Nat) : ∀ (t : SymTree) (h : Option Sym),
    List.Pairwise symR t.inorder →
    (∃ c ∈ t.inorder, containsOff c off) → (rbFindHole t off h).1 = true := by
  intro t
  induction t with
  | leaf =>
      intro h _ hex
      simp [SymTree.inorder] at hex
  | node l s r ihl ihr =>
      intro h hpair hex
      obtain ⟨hpl, hpr, hls, hsr, hlr⟩ := pairwise_node hpair
      obtain ⟨c, hcm, hc⟩ := hex
      rw [SymTree.inorder, List.mem_append, List.mem_cons] at hcm
      by_cases hlt : off < s.offset
      · have hcl : c ∈ l.inorder := by
          rcases hcm with hm | hm | hm
          · exact hm
          · exfalso; rw [hm] at hc; exact absurd hc.1 (by omega)
          · exfalso
            have := hsr c hm
            unfold symR at this
            obtain ⟨h1, h2⟩ := hc
            omega
        simp only [rbFindHole, if_pos hlt]
        exact ihl h hpl ⟨c, hcl, hc⟩
      · by_cases hge : s.offset + s.len ≤ off
        · have hcr : c ∈ r.inorder := by
            rcases hcm with hm | hm | hm
            · exfalso
              have := hls c hm
              unfold symR at this
              obtain ⟨h1, h2⟩ := hc
              omega
            · exfalso; rw [hm] at hc; obtain ⟨h1, h2⟩ := hc; omega
            · exact hm
          simp only [rbFindHole, if_neg hlt, if_pos hge]
          exact ihr _ hpr ⟨c, hcr, hc⟩
        · simp only [rbFindHole, if_neg hlt, if_neg hge]

/-- The hole fold over a list none of whose members end at or before
`off`. -/
lemma holeFold_no_update (off : Nat) (l : List Sym)
    (h : ∀ s ∈ l, ¬ (s.offset + s.len ≤ off)) (acc : Option Sym) :
    l.foldl (fun acc s => if s.offset + s.len ≤ off then some s else acc) acc = acc := by
  induction l generalizing acc with
  | nil => rfl
  | cons x rest ih =>
      rw [List.foldl_cons, if_neg (h x (List.mem_cons_self _ _))]
      exact ih (fun s hs => h s (List.mem_cons_of_mem _ hs)) acc

/-- In the no-containment case the search fails and leaves in `sh->sym` the
last (rightmost) symbol in traversal order ending at or before `off`,
computed as a fold. -/
lemma rbFindHole_not_found (off : Nat) : ∀ (t : SymTree) (h : Option Sym),
    List.Pairwise symR t.inorder →
    (∀ s ∈ t.inorder, s.typ ≠ .sect) →
    (∀ s ∈ t.inorder, ¬ containsOff s off) →
    rbFindHole t off h =
      (false, t.inorder.foldl (fun acc s => if s.offset + s.len ≤ off then some s else acc) h) := by
  intro t
  induction t with
  | leaf => intro h _ _ _; rfl
  | node l s r ihl ihr =>
      intro h hpair hns hnc
      obtain ⟨hpl, hpr, hls, hsr, hlr⟩ := pairwise_node hpair
      have hmem_s : s ∈ SymTree.inorder (.node l s r) := by
        rw [SymTree.inorder, List.mem_append, List.mem_cons]; right; left; rfl
      have hmem_l : ∀ x ∈ l.inorder, x ∈ SymTree.inorder (.node l s r) := by
        intro x hx
        rw [SymTree.inorder, List.mem_append]; left; exact hx
      have hmem_r : ∀ y ∈ r.inorder, y ∈ SymTree.inorder (.node l s r) := by
        intro y hy
        rw [SymTree.inorder, List.mem_append, List.mem_cons]; right; right; exact hy
      rw [SymTree.inorder, List.foldl_append, List.foldl_cons]
      by_cases hlt : off < s.offset
      · simp only [rbFindHole, if_pos hlt]
        have hs_no : ¬ (s.offset + s.len ≤ off) := by omega
        rw [if_neg hs_no]
        have hr_no : ∀ y ∈ r.inorder, ¬ (y.offset + y.len ≤ off) := by
          intro y hy
          have := hsr y hy
          unfold symR at this
          omega
        rw [holeFold_no_update off r.inorder hr_no]
        exact ihl h hpl (fun x hx => hns x (hmem_l x hx)) (fun x hx => hnc x (hmem_l x hx))
      · by_cases hge : s.offset + s.len ≤ off
        · simp only [rbFindHole, if_neg hlt, if_pos hge]
          rw [if_neg (hns s hmem_s)]
          exact ihr (some s) hpr (fun y hy => hns y (hmem_r y hy))
            (fun y hy => hnc y (hmem_r y hy))
        · exfalso
          exact hnc s hmem_s ⟨by omega, by omega⟩

lemma foldl_eq_filter_getLast (off : Nat) :
    ∀ (l : List Sym) (h : Option Sym),
      l.foldl (fun acc s => if s.offset + s.len ≤ off then some s else acc) h
        = (match (l.filter (fun s => decide (s.offset + s.len ≤ off))).getLast? with
           | none => h
           | some x => some x) := by
  intro l
  induction l with
  | nil => intro h; rfl
  | cons x rest ih =>
      intro h
      rw [List.foldl_cons, List.filter_cons]
      by_cases hc : x.offset + x.len ≤ off
      · rw [if_pos hc, if_pos (by simpa using hc)]
        rw [ih (some x)]
        cases hfr : List.filter (fun s => decide (s.offset + s.len ≤ off)) rest with
        | nil => simp
        | cons z zs =>
            rw [List.getLast?_cons_cons]
            have hz : ((z :: zs).getLast?).isSome := by
              rw [List.getLast?_isSome]
              simp
            obtain ⟨w, hw⟩ := Option.isSome_iff_exists.mp hz
            rw [hw]
      · rw [if_neg hc, if_neg (by simpa using hc)]
        exact ih h

lemma sorted_partition (off : Nat) :
    ∀ l : List Sym, List.Pairwise symR l → (∀ s ∈ l, ¬ containsOff s off) →
      l = l.filter (fun s => decide (s.offset + s.len ≤ off))
            ++ l.filter (fun s => decide (off < s.offset)) := by
  intro l
  induction l with
  | nil => intro _ _; rfl
  | cons x rest ih =>
      intro hpair hnc
      rw [List.pairwise_cons] at hpair
      obtain ⟨hx, hrest⟩ := hpair
      have hncr : ∀ s ∈ rest, ¬ containsOff s off :=
        fun s hs => hnc s (List.mem_cons_of_mem _ hs)
      by_cases hc : x.offset + x.len ≤ off
      · rw [List.filter_cons, List.filter_cons, if_pos (by simpa using hc),
          if_neg (by simp; omega)]
        rw [List.cons_append]
        congr 1
        exact ih hrest hncr
      · have hxB : off < x.offset := by
          have := hnc x (List.mem_cons_self _ _)
          unfold containsOff at this
          omega
        have hrestB : ∀ y ∈ rest, off < y.offset := by
          intro y hy
          have := hx y hy
          unfold symR at this
          omega
        rw [List.filter_cons, List.filter_cons, if_neg (by simpa using hc),
          if_pos (by simpa using hxB)]
        have hA : List.filter (fun s => decide (s.offset + s.len ≤ off)) rest = [] := by
          rw [List.filter_eq_nil_iff]
          intro y hy
          have := hrestB y hy
          simp
          omega
        have hB : List.filter (fun s => decide (off < s.offset)) rest = rest := by
          rw [List.filter_eq_self]
          intro y hy
          simpa using hrestB y hy
        rw [hA, hB, List.nil_append]

lemma getLast?_decomp {α : Type} :
    ∀ (l : List α) (a : α), l.getLast? = some a → ∃ l', l = l' ++ [a] := by
  intro l
  induction l with
  | nil => intro a h; simp at h
  | cons x rest ih =>
      intro a h
      cases rest with
      | nil =>
          refine ⟨[], ?_⟩
          simp only [List.getLast?_singleton, Option.some_inj] at h
          rw [h]
          rfl
      | cons y ys =>
          rw [List.getLast?_cons_cons] at h
          obtain ⟨l', hl⟩ := ih a h
          exact ⟨x :: l', by rw [List.cons_append, ← hl]⟩

lemma dropWhile_at_last (a : Sym) :
    ∀ (pre post : List Sym), (∀ x ∈ pre, x ≠ a) →
      List.dropWhile (fun x => x != a) (pre ++ a :: post) = a :: post := by
  intro pre
  induction pre with
  | nil =>
      intro post _
      rw [List.nil_append, List.dropWhile_cons]
      simp
  | cons x rest ih =>
      intro post hne
      rw [List.cons_append, List.dropWhile_cons]
      have : (x != a) = true := by
        simpa using hne x (List.mem_cons_self _ _)
      rw [this]
      simp only [if_true]
      exact ih post (fun y hy => hne y (List.mem_cons_of_mem _ hy))

/-- **C4 (amended).** Under a well-formed section tree (in-order symbols
pairwise non-overlapping, of positive length, none `STT_SECTION`),
`find_symbol_hole_containing` returns 0 when some symbol contains `off`
*or when no symbol ends at or before `off`*; otherwise it returns the
positive distance from `off` to the start of the next symbol after the
rightmost symbol ending at or before `off`, or -1 when no symbol starts
after `off`. -/
theorem find_symbol_hole_containing_spec (t : SymTree) (off : Nat)
    (hpair : List.Pairwise symR t.inorder)
    (hlen : ∀ s ∈ t.inorder, 1 ≤ s.len)
    (hns : ∀ s ∈ t.inorder, s.typ ≠ .sect) :
    ((∃ s ∈ t.inorder, containsOff s off) → find_symbol_hole_containing t off = 0) ∧
    ((∀ s ∈ t.inorder, ¬ containsOff s off) →
      (holeA t off = [] → find_symbol_hole_containing t off = 0) ∧
      (holeA t off ≠ [] →
        (∀ s', (holeB t off).head? = some s' →
          find_symbol_hole_containing t off = (s'.offset : Int) - (off : Int) ∧
          0 < (s'.offset : Int) - (off : Int)) ∧
        ((holeB t off).head? = none → find_symbol_hole_containing t off = -1))) := by
  constructor
  · intro hex
    have h1 := rbFindHole_found off t none hpair hex
    unfold find_symbol_hole_containing
    cases hrb : rbFindHole t off none with
    | mk b hs =>
        rw [hrb] at h1
        simp only at h1
        subst h1
        rfl
  · intro hnc
    have h2 := rbFindHole_not_found off t none hpair hns hnc
    have hfold := foldl_eq_filter_getLast off t.inorder none
    rw [hfold] at h2
    constructor
    · intro hAe
      unfold find_symbol_hole_containing
      rw [h2]
      unfold holeA at hAe
      rw [hAe]
      rfl
    · intro hAne
      have hA : ∃ a, (holeA t off).getLast? = some a := by
        cases hl : (holeA t off).getLast? with
        | none =>
            exfalso
            rw [List.getLast?_eq_none_iff] at hl
            exact hAne hl
        | some a => exact ⟨a, rfl⟩
      obtain ⟨a, ha⟩ := hA
      have h2' : rbFindHole t off none = (false, some a) := by
        rw [h2]
        unfold holeA at ha
        rw [ha]
      -- decompose the traversal as A ++ B and locate a at the end of A
      have hpart := sorted_partition off t.inorder hpair hnc
      obtain ⟨pre, hpre⟩ := getLast?_decomp (holeA t off) a ha
      have hpreA : ∀ x ∈ pre, x ≠ a := by
        intro x hx
        have hpw : List.Pairwise symR (holeA t off) := List.Pairwise.filter _ hpair
        rw [hpre, List.pairwise_append] at hpw
        have hxa := hpw.2.2 x hx a (List.mem_cons_self _ _)
        unfold symR at hxa
        have hx_mem : x ∈ t.inorder := by
          have : x ∈ holeA t off := by rw [hpre]; exact List.mem_append_left _ hx
          exact List.mem_of_mem_filter this
        have := hlen x hx_mem
        intro hEq
        subst hEq
        omega
      have hnext : nextInorder t.inorder a = (holeB t off).head? := by
        unfold nextInorder
        conv_lhs => rw [hpart]
        unfold holeA at hpre
        rw [hpre, List.append_assoc, List.singleton_append]
        rw [dropWhile_at_last a pre _ hpreA]
        simp [holeB]
      constructor
      · intro s' hs'
        have hs'B : s' ∈ holeB t off := by
          cases hb : holeB t off with
          | nil => rw [hb] at hs'; simp at hs'
          | cons z zs =>
              rw [hb] at hs'
              simp only [List.head?] at hs'
              rw [Option.some_inj] at hs'
              rw [hs']
              exact List.mem_cons_self _ _
        have hs'pos : off < s'.offset := by
          unfold holeB at hs'B
          have := List.of_mem_filter hs'B
          simpa using this
        refine ⟨?_, by omega⟩
        unfold find_symbol_hole_containing
        rw [h2']
        simp only [hnext, hs']
      · intro hs'
        unfold find_symbol_hole_containing
        rw [h2']
        simp only [hnext, hs']

/-- The tree of the C4 counterexample: a single symbol `b@[32,48)`. -/
def c4sym : Sym :=
  { sid := 1, name := ['b'], typ := .func, bind := .localB, sec := 1,
    offset := 32, len := 16, idx := 1, pfunc := none, cfunc := none }

def c4tree : SymTree := .node .leaf c4sym .leaf

/-- **C4 counterexample.** With one symbol at `[32, 48)` and `off = 20`, no
symbol contains 20 and a symbol does start after 20 (so the claim demands
the positive distance 12), yet `find_symbol_hole_containing` returns 0: the
code answers "not a hole" whenever no symbol ends at or before the
offset. -/
theorem find_symbol_hole_c4_counterexample :
    find_symbol_hole_containing c4tree 20 = 0 ∧
    (∀ s ∈ c4tree.inorder, ¬ containsOff s 20) ∧
    (∃ s ∈ c4tree.inorder, 20 < s.offset) := by
  refine ⟨rfl, ?_, ?_⟩
  · decide
  · exact ⟨c4sym, by decide, by decide⟩

def c4wa : Sym :=
  { sid := 2, name := ['a'], typ := .func, bind := .localB, sec := 1,
    offset := 0, len := 16, idx := 2, pfunc := none, cfunc := none }

/-- The S2 scenario: `a@[0,16)`, `b@[32,48)`. -/
def c4wtree : SymTree := .node (.node .leaf c4wa .leaf) c4sym .leaf

/-- Witness for C4 (amended) on the S2 scenario: the hole at 20 has size
`32 - 20 = 12`. -/
theorem find_symbol_hole_containing_spec_witness :
    find_symbol_hole_containing c4wtree 20 = 12 ∧ (0 : Int) < 12 := by
  have h := (find_symbol_hole_containing_spec c4wtree 20 (by decide) (by decide) (by decide)).2
    (by decide)
  have h2 := (h.2 (by decide)).1 c4sym (by decide)
  exact ⟨by rw [h2.1]; decide, by decide⟩

/-! ## C3: `__elf_create_symbol` (`elf.c:738`)

The symbol-table state carries the pieces the function touches: the
`.symtab` header fields, the symbol hash (a list searched by `idx`), and
the reloc sections with their `changed` flags and relocations in file
order.  `read_relocs` (`elf.c:969`) chains a relocation whose offset
equals the previous one's to that head's `next` instead of adding it to
its symbol's `reloc_list`, so `elf_dirty_reloc_sym` sees only the first
relocation of each same-offset run.  `elf_update_symbol` only writes the
libelf data blocks, so it is modelled as always succeeding; the
`.symtab_shndx` bookkeeping is elided the same way.  The caller inserts
the new symbol into the hash afterwards via `elf_add_symbol`, so `syms`
does not receive it here. -/

structure SReloc where
  rid : Nat
  offset : Nat
  symSid : Nat
deriving DecidableEq, Repr

structure RSec where
  rsid : Nat
  changed : Bool
  relocs : List SReloc
deriving DecidableEq, Repr

structure SymtabState where
  shInfo : Nat
  shSize : Nat
  entsize : Nat
  syms : List Sym
  rsecs : List RSec
deriving DecidableEq, Repr

def headsAux (prev : SReloc) : List SReloc → List SReloc
  | [] => []
  | x :: xs => if x.offset == prev.offset then headsAux x xs else x :: headsAux x xs

/-- The relocations `read_relocs` (`elf.c:969-977`) adds to their symbol's
`reloc_list` (and to the section list and hash): the first of each
same-offset run.  A follower whose offset equals its predecessor's is
chained to `last_reloc->next` and skipped (the `continue`), and
`elf_add_reloc` with `prev` set (`elf.c:573-579`) skips the same way. -/
def heads : List SReloc → List SReloc
  | [] => []
  | x :: xs => x :: headsAux x xs

/-- `find_symbol_by_index` (`elf.c:127`). -/
def findSymbolByIndex (st : SymtabState) (i : Nat) : Option Sym :=
  st.syms.find? (fun s => s.idx == i)

/-- `elf_dirty_reloc_sym` (`elf.c:592`): walk `sym->reloc_list` — the head
relocations referencing the symbol — and mark their sections changed.  A
section whose only reference to the symbol is a chained relocation is
never visited. -/
def elf_dirty_reloc_sym (st : SymtabState) (sid : Nat) : SymtabState :=
  { st with rsecs := st.rsecs.map (fun rs =>
      if (heads rs.relocs).any (fun r => r.symSid == sid)
      then { rs with changed := true } else rs) }

/-- `__elf_create_symbol` (`elf.c:738`): returns the updated state and the
symbol with its assigned index. -/
def elf_create_symbol (st : SymtabState) (sym : Sym) : SymtabState × Sym :=
  let new_idx := st.shSize / st.entsize
  if sym.bind ≠ .localB then
    ({ st with shSize := st.shSize + st.entsize }, { sym with idx := new_idx })
  else
    let first_non_local := st.shInfo
    match findSymbolByIndex st first_non_local with
    | some old =>
        let st1 := { st with syms := st.syms.map (fun s =>
          if s.sid == old.sid then { s with idx := new_idx } else s) }
        let st2 := elf_dirty_reloc_sym st1 old.sid
        ({ st2 with shInfo := st2.shInfo + 1, shSize := st2.shSize + st.entsize },
          { sym with idx := first_non_local })
    | none =>
        ({ st with shInfo := st.shInfo + 1, shSize := st.shSize + st.entsize },
          { sym with idx := new_idx })

/-- **C3 (amended).** Creating a local symbol moves the symbol at index
`sh_info` to the index one past the end of the table, gives the new local
the freed index and increments `sh_info`; every reloc section holding a
relocation on the moved symbol's reloc list — one referencing it that is
first at its offset in that section — is marked changed, while a section
none of whose head relocations references the moved symbol is left
exactly as it was, even when a same-offset chained relocation in it
references the symbol.  Creating a non-local symbol just takes the index
at the end of the table, with `sh_info` and the existing symbols
untouched. -/
theorem elf_create_symbol_spec (st : SymtabState) (sym : Sym) (n : Nat)
    (hent : 0 < st.entsize) (hsz : st.shSize = st.entsize * n) :
    (sym.bind = .localB →
      ∀ old, findSymbolByIndex st st.shInfo = some old →
        ∀ st' sym', elf_create_symbol st sym = (st', sym') →
          sym' = { sym with idx := st.shInfo } ∧
          st'.shInfo = st.shInfo + 1 ∧
          st'.shSize = st.shSize + st.entsize ∧
          (∀ s ∈ st'.syms, s.sid = old.sid → s.idx = n) ∧
          (∀ s ∈ st.syms, s.sid ≠ old.sid → s ∈ st'.syms) ∧
          (∀ rs ∈ st.rsecs, (∃ r ∈ heads rs.relocs, r.symSid = old.sid) →
            { rs with changed := true } ∈ st'.rsecs) ∧
          (∀ rs ∈ st.rsecs, (¬ ∃ r ∈ heads rs.relocs, r.symSid = old.sid) →
            rs ∈ st'.rsecs)) ∧
    (sym.bind ≠ .localB →
      ∀ st' sym', elf_create_symbol st sym = (st', sym') →
        sym' = { sym with idx := n } ∧
        st'.shInfo = st.shInfo ∧
        st'.shSize = st.shSize + st.entsize ∧
        st'.syms = st.syms ∧ st'.rsecs = st.rsecs) := by
  have hidx : st.shSize / st.entsize = n := by
    rw [hsz, Nat.mul_div_cancel_left n hent]
  constructor
  · intro hb old hold st' sym' heq
    unfold elf_create_symbol at heq
    rw [if_neg (by simp [hb])] at heq
    simp only [hold] at heq
    simp only [Prod.mk.injEq] at heq
    obtain ⟨hst, hsym⟩ := heq
    refine ⟨hsym.symm, ?_, ?_, ?_, ?_, ?_, ?_⟩
    · rw [← hst]; rfl
    · rw [← hst]; rfl
    · intro s hs hsid
      rw [← hst] at hs
      simp only [elf_dirty_reloc_sym] at hs
      rw [List.mem_map] at hs
      obtain ⟨s0, hs0, hmap⟩ := hs
      by_cases hcase : (s0.sid == old.sid) = true
      · rw [if_pos hcase] at hmap
        rw [← hmap, hidx]
      · rw [if_neg hcase] at hmap
        rw [← hmap] at hsid
        exact absurd hsid (by simpa using hcase)
    · intro s hs hne
      rw [← hst]
      simp only [elf_dirty_reloc_sym]
      rw [List.mem_map]
      refine ⟨s, hs, ?_⟩
      rw [if_neg (by simpa using hne)]
    · intro rs hrs hex
      rw [← hst]
      simp only [elf_dirty_reloc_sym]
      rw [List.mem_map]
      refine ⟨rs, hrs, ?_⟩
      rw [if_pos ?_]
      rw [List.any_eq_true]
      obtain ⟨r, hr, h1⟩ := hex
      exact ⟨r, hr, by simp [h1]⟩
    · intro rs hrs hnex
      rw [← hst]
      simp only [elf_dirty_reloc_sym]
      rw [List.mem_map]
      refine ⟨rs, hrs, ?_⟩
      have hcond : ¬ (((heads rs.relocs).any (fun r => r.symSid == old.sid)) = true) := by
        rw [List.any_eq_true]
        rintro ⟨r, hr, hc⟩
        simp only [beq_iff_eq] at hc
        exact hnex ⟨r, hr, hc⟩
      rw [if_neg hcond]
  · intro hb st' sym' heq
    unfold elf_create_symbol at heq
    rw [if_pos hb] at heq
    simp only [Prod.mk.injEq] at heq
    obtain ⟨hst, hsym⟩ := heq
    rw [hidx] at hsym
    exact ⟨hsym.symm, by rw [← hst], by rw [← hst], by rw [← hst], by rw [← hst]⟩

/-- The S3-style concrete state: two symbols (a local at index 0, a global
at index 1 = `sh_info`), one reloc section whose head relocation
references the global. -/
def c3old : Sym :=
  { sid := 2, name := ['g'], typ := .func, bind := .globalB, sec := 1,
    offset := 8, len := 4, idx := 1, pfunc := none, cfunc := none }

def c3st : SymtabState :=
  { shInfo := 1, shSize := 2, entsize := 1,
    syms := [{ sid := 1, name := ['a'], typ := .func, bind := .localB, sec := 1,
               offset := 0, len := 4, idx := 0, pfunc := none, cfunc := none }, c3old],
    rsecs := [{ rsid := 10, changed := false,
                relocs := [{ rid := 1, offset := 0, symSid := 2 }] }] }

def c3new : Sym :=
  { sid := 3, name := ['n'], typ := .object, bind := .localB, sec := 1,
    offset := 16, len := 4, idx := 0, pfunc := none, cfunc := none }

/-- Witness for C3 (amended): on the concrete state, the global at index 1
moves to index 2, its reloc section (whose head relocation references it)
is dirtied, the new local takes index 1 and `sh_info` becomes 2. -/
theorem elf_create_symbol_spec_witness :
    (elf_create_symbol c3st c3new).2.idx = 1 ∧
    (elf_create_symbol c3st c3new).1.shInfo = 2 ∧
    (∀ s ∈ (elf_create_symbol c3st c3new).1.syms, s.sid = 2 → s.idx = 2) ∧
    { rsid := 10, changed := true,
      relocs := [{ rid := 1, offset := 0, symSid := 2 }] }
      ∈ (elf_create_symbol c3st c3new).1.rsecs := by
  have h := (elf_create_symbol_spec c3st c3new 2 (by decide) (by decide)).1 (by decide)
    c3old (by decide) (elf_create_symbol c3st c3new).1 (elf_create_symbol c3st c3new).2 rfl
  refine ⟨?_, h.2.1, fun s hs hsid => h.2.2.2.1 s hs hsid, ?_⟩
  · rw [h.1]; rfl
  · exact h.2.2.2.2.2.1
      { rsid := 10, changed := false, relocs := [{ rid := 1, offset := 0, symSid := 2 }] }
      (by decide) ⟨{ rid := 1, offset := 0, symSid := 2 }, by decide, rfl⟩

/-- Head relocation of the same-offset pair: references some other symbol. -/
def c3chainA : SReloc := { rid := 1, offset := 0, symSid := 9 }

/-- Chained follower at the same offset: references the moved symbol. -/
def c3chainB : SReloc := { rid := 2, offset := 0, symSid := 2 }

/-- The chained-reloc state: section 10's two relocations share offset 0,
so `read_relocs` chains the second behind the first. -/
def c3cst : SymtabState :=
  { shInfo := 1, shSize := 2, entsize := 1,
    syms := [{ sid := 1, name := ['a'], typ := .func, bind := .localB, sec := 1,
               offset := 0, len := 4, idx := 0, pfunc := none, cfunc := none }, c3old],
    rsecs := [{ rsid := 10, changed := false, relocs := [c3chainA, c3chainB] }] }

/-- **C3 counterexample.** The claim says every relocation section
containing a relocation that references the moved symbol is marked
changed.  Section 10 contains `c3chainB`, which references the moved
symbol (the one at index `sh_info`), but it sits at the same offset as
its predecessor, so `read_relocs` chains it behind `c3chainA` and never
puts it on the symbol's `reloc_list`; `elf_dirty_reloc_sym` therefore
leaves the section unmarked. -/
theorem elf_create_symbol_c3_counterexample :
    (∃ rs ∈ c3cst.rsecs, c3chainB ∈ rs.relocs ∧ c3chainB.symSid = c3old.sid) ∧
    findSymbolByIndex c3cst c3cst.shInfo = some c3old ∧
    c3new.bind = SymBind.localB ∧
    (∀ rs ∈ (elf_create_symbol c3cst c3new).1.rsecs, rs.changed = false) := by
  refine ⟨⟨{ rsid := 10, changed := false, relocs := [c3chainA, c3chainB] },
    by decide, by decide, rfl⟩, by decide, rfl, by decide⟩

/-! ## C8: `elf_add_symbol` (`elf.c:359`)

Per-section state: the symbol list (`sec->symbol_list`, in list order) and
the interval tree, abstracted by its in-order traversal (the `Sym` values;
rotations never change it).  The C nodes are shared between tree and list,
so the alias update writes both.  `aliasSym` models the `alias` field
(`alias` is reserved in Lean); interval search at a point matched together
with the `offset`/`type` equality reduces to the latter. -/

structure SecState where
  symList : List Sym
  tree : List Sym
deriving DecidableEq, Repr

/-- `list_add(&sym->list, entry)`: insert `s` right after the node with sid
`p`. -/
def insertAfterSid : List Sym → Nat → Sym → List Sym
  | [], _, s => [s]
  | x :: rest, p, s => if x.sid == p then x :: s :: rest else x :: insertAfterSid rest p s

/-- The alias-update function of `elf_add_symbol`, as applied to the shared
tree/list nodes. -/
def aliasUpd (sym0 : Sym) (it : Sym) : Sym :=
  if it.offset == sym0.offset && it.typ == sym0.typ
  then { it with aliasSym := some sym0.sid } else it

lemma aliasUpd_sid (sym0 it : Sym) : (aliasUpd sym0 it).sid = it.sid := by
  unfold aliasUpd; split <;> rfl

lemma aliasUpd_offset (sym0 it : Sym) : (aliasUpd sym0 it).offset = it.offset := by
  unfold aliasUpd; split <;> rfl

/-- `sym->alias = sym` and `iter->alias = sym` writes. -/
def symAlias (sym0 : Sym) : Sym := { sym0 with aliasSym := some sym0.sid }

/-- The tree entries matched by the `__sym_for_each` alias loop, by identity. -/
def treeMatchedSids (tree : List Sym) (sym0 : Sym) : List Nat :=
  (tree.filter (fun it => it.offset == sym0.offset && it.typ == sym0.typ)).map (fun it => it.sid)

/-- The alias update as it lands on the list copies of the shared nodes. -/
def listAlias (m : List Nat) (sym0 : Sym) (it : Sym) : Sym :=
  if m.contains it.sid then { it with aliasSym := some sym0.sid } else it

/-- `rb_prev` of the freshly inserted node: the rightmost tree symbol with
offset ≤ the new one's (`__sym_insert` sends equal offsets right). -/
def treePred (tree : List Sym) (c : Nat) : Option Sym :=
  (tree.takeWhile (fun it => decide (it.offset ≤ c))).getLast?

/-- `elf_add_symbol` (`elf.c:359`): alias the same-offset same-type tree
entries to the new symbol, insert it into the tree (equal offsets descend
right), place it in the list right after its tree predecessor (`rb_prev`),
and take zero-length symbols back out of the tree. -/
def elf_add_symbol (st : SecState) (sym0 : Sym) : SecState :=
  let sym := symAlias sym0
  let tree1 := st.tree.map (aliasUpd sym0)
  let list1 := st.symList.map (listAlias (treeMatchedSids st.tree sym0) sym0)
  let pre := tree1.takeWhile (fun it => decide (it.offset ≤ sym0.offset))
  let post := tree1.dropWhile (fun it => decide (it.offset ≤ sym0.offset))
  let list2 := match pre.getLast? with
    | none => sym :: list1
    | some p => insertAfterSid list1 p.sid sym
  { symList := list2,
    tree := if sym0.len == 0 then pre ++ post else pre ++ sym :: post }

/-- Non-decreasing offsets. -/
def sortedOff (l : List Sym) : Prop :=
  List.Pairwise (fun a b => a.offset ≤ b.offset) l

instance (l : List Sym) : Decidable (sortedOff l) := by
  unfold sortedOff
  exact List.instDecidablePairwise l

lemma insertAfterSid_at (p : Sym) (s : Sym) :
    ∀ (pre post : List Sym), (∀ x ∈ pre, x.sid ≠ p.sid) →
      insertAfterSid (pre ++ p :: post) p.sid s = pre ++ p :: s :: post := by
  intro pre
  induction pre with
  | nil =>
      intro post _
      rw [List.nil_append, insertAfterSid]
      simp
  | cons x rest ih =>
      intro post hne
      rw [List.cons_append, insertAfterSid, if_neg (by
        simpa using hne x (List.mem_cons_self _ _))]
      rw [List.cons_append]
      congr 1
      exact ih post (fun y hy => hne y (List.mem_cons_of_mem _ hy))

lemma dropWhile_gt (c : Nat) :
    ∀ l : List Sym, sortedOff l →
      ∀ x ∈ l.dropWhile (fun it => decide (it.offset ≤ c)), c < x.offset := by
  intro l
  induction l with
  | nil => intro _ x hx; simp at hx
  | cons y rest ih =>
      intro hs x hx
      rw [sortedOff, List.pairwise_cons] at hs
      rw [List.dropWhile_cons] at hx
      by_cases hy : y.offset ≤ c
      · rw [if_pos (by simpa using hy)] at hx
        exact ih hs.2 x hx
      · rw [if_neg (by simpa using hy)] at hx
        rw [List.mem_cons] at hx
        rcases hx with hx | hx
        · subst hx; omega
        · have := hs.1 x hx
          omega

lemma takeWhile_le (c : Nat) (l : List Sym) :
    ∀ x ∈ l.takeWhile (fun it => decide (it.offset ≤ c)), x.offset ≤ c := by
  intro x hx
  have := List.mem_takeWhile_imp hx
  simpa using this

lemma eq_of_sid_mem {l : List Sym} (hnodup : (l.map (fun s => s.sid)).Nodup)
    {x y : Sym} (hx : x ∈ l) (hy : y ∈ l) (hsid : x.sid = y.sid) : x = y :=
  List.inj_on_of_nodup_map hnodup hx hy hsid

lemma contains_matched (sym : Sym) (l : List Sym)
    (hnodup : (l.map (fun s => s.sid)).Nodup) :
    ∀ it ∈ l,
      ((l.filter (fun it => it.offset == sym.offset && it.typ == sym.typ)).map
        (fun it => it.sid)).contains it.sid
      = (it.offset == sym.offset && it.typ == sym.typ) := by
  intro it hit
  by_cases hm : (it.offset == sym.offset && it.typ == sym.typ) = true
  · rw [hm]
    have hmem : it.sid ∈ (l.filter
        (fun it => it.offset == sym.offset && it.typ == sym.typ)).map (fun it => it.sid) :=
      List.mem_map_of_mem _ (List.mem_filter.mpr ⟨hit, hm⟩)
    exact List.elem_eq_true_of_mem hmem
  · rw [Bool.not_eq_true] at hm
    rw [hm, Bool.eq_false_iff]
    intro hcon
    have hmem : it.sid ∈ (l.filter
        (fun it => it.offset == sym.offset && it.typ == sym.typ)).map (fun it => it.sid) :=
      List.elem_iff.mp hcon
    rw [List.mem_map] at hmem
    obtain ⟨y, hy, hysid⟩ := hmem
    have hyl := List.mem_of_mem_filter hy
    have hym := List.of_mem_filter hy
    have heq : y = it := eq_of_sid_mem hnodup hyl hit hysid
    rw [heq] at hym
    rw [hym] at hm
    simp at hm

lemma takeWhile_map_comm (f : Sym → Sym) (p : Sym → Bool) (hf : ∀ x, p (f x) = p x) :
    ∀ l : List Sym, (l.map f).takeWhile p = (l.takeWhile p).map f := by
  intro l
  induction l with
  | nil => rfl
  | cons x xs ih =>
      rw [List.map_cons, List.takeWhile_cons, List.takeWhile_cons, hf]
      by_cases hp : p x = true
      · rw [if_pos hp, if_pos hp, List.map_cons, ih]
      · rw [Bool.not_eq_true] at hp
        rw [if_neg (by rw [hp]; simp), if_neg (by rw [hp]; simp), List.map_nil]

lemma getLast?_map_sym (f : Sym → Sym) : ∀ l : List Sym,
    (l.map f).getLast? = (l.getLast?).map f := by
  intro l
  induction l with
  | nil => rfl
  | cons x xs ih =>
      cases xs with
      | nil => rfl
      | cons y ys =>
          rw [List.map_cons, List.map_cons, List.getLast?_cons_cons, List.getLast?_cons_cons]
          rw [← List.map_cons]
          exact ih

lemma insertAfterSid_mem_self (p : Nat) (s : Sym) : ∀ l, s ∈ insertAfterSid l p s := by
  intro l
  induction l with
  | nil => exact List.mem_singleton.mpr rfl
  | cons x rest ih =>
      unfold insertAfterSid
      split
      · exact List.mem_cons_of_mem _ (List.mem_cons_self _ _)
      · exact List.mem_cons_of_mem _ ih

lemma insertAfterSid_subset (p : Nat) (s : Sym) : ∀ l, ∀ x ∈ l, x ∈ insertAfterSid l p s := by
  intro l
  induction l with
  | nil =>
      intro x hx
      exact absurd hx (List.not_mem_nil x)
  | cons y rest ih =>
      intro x hx
      unfold insertAfterSid
      rcases List.mem_cons.mp hx with rfl | hx2
      · split
        · exact List.mem_cons_self _ _
        · exact List.mem_cons_self _ _
      · split
        · exact List.mem_cons_of_mem _ (List.mem_cons_of_mem _ hx2)
        · exact List.mem_cons_of_mem _ (ih x hx2)

lemma insertAfterSid_split (p : Nat) (s : Sym) :
    ∀ l, (∃ x ∈ l, x.sid = p) →
      ∃ l1 x l2, l = l1 ++ x :: l2 ∧ x.sid = p ∧
        insertAfterSid l p s = l1 ++ x :: s :: l2 := by
  intro l
  induction l with
  | nil =>
      rintro ⟨x, hx, -⟩
      exact absurd hx (List.not_mem_nil x)
  | cons y rest ih =>
      rintro ⟨x, hx, hxs⟩
      by_cases hyp : (y.sid == p) = true
      · refine ⟨[], y, rest, rfl, by simpa using hyp, ?_⟩
        unfold insertAfterSid
        rw [if_pos hyp]
        rfl
      · have hxr : x ∈ rest := by
          rcases List.mem_cons.mp hx with rfl | h2
          · exact absurd (by simpa using hxs) (by simpa using hyp)
          · exact h2
        obtain ⟨l1, x', l2, hsplit, hxs', hins⟩ := ih ⟨x, hxr, hxs⟩
        refine ⟨y :: l1, x', l2, by rw [hsplit, List.cons_append], hxs', ?_⟩
        unfold insertAfterSid
        rw [if_neg hyp, hins, List.cons_append]

/-- `elf_add_symbol` on a mirrored state (`tree = symList`, as after adding
only nonzero-length symbols) inserts the symbol after its tree predecessor
in both collections, then removes it from the tree when zero-length. -/
lemma elf_add_symbol_eq (st : SecState) (sym0 : Sym)
    (hmirror : st.tree = st.symList)
    (hnodup : (st.symList.map (fun s => s.sid)).Nodup) :
    elf_add_symbol st sym0 =
      { symList := (st.symList.map (aliasUpd sym0)).takeWhile
            (fun it => decide (it.offset ≤ sym0.offset))
          ++ symAlias sym0
          :: (st.symList.map (aliasUpd sym0)).dropWhile
            (fun it => decide (it.offset ≤ sym0.offset)),
        tree := if sym0.len == 0 then
            (st.symList.map (aliasUpd sym0)).takeWhile
              (fun it => decide (it.offset ≤ sym0.offset))
            ++ (st.symList.map (aliasUpd sym0)).dropWhile
              (fun it => decide (it.offset ≤ sym0.offset))
          else
            (st.symList.map (aliasUpd sym0)).takeWhile
              (fun it => decide (it.offset ≤ sym0.offset))
            ++ symAlias sym0
            :: (st.symList.map (aliasUpd sym0)).dropWhile
              (fun it => decide (it.offset ≤ sym0.offset)) } := by
  unfold elf_add_symbol
  rw [hmirror]
  have hlist1 : st.symList.map (listAlias (treeMatchedSids st.symList sym0) sym0)
      = st.symList.map (aliasUpd sym0) := by
    apply List.map_congr_left
    intro it hit
    unfold listAlias treeMatchedSids
    rw [contains_matched sym0 st.symList hnodup it hit]
    rfl
  set L := st.symList.map (aliasUpd sym0) with hL
  have hLnodup : (L.map (fun s => s.sid)).Nodup := by
    rw [hL, List.map_map]
    have : ((fun s : Sym => s.sid) ∘ aliasUpd sym0) = (fun s : Sym => s.sid) := by
      funext x
      simp [Function.comp, aliasUpd_sid]
    rw [this]
    exact hnodup
  have hsplit : L.takeWhile (fun it => decide (it.offset ≤ sym0.offset))
      ++ L.dropWhile (fun it => decide (it.offset ≤ sym0.offset)) = L :=
    List.takeWhile_append_dropWhile _ _
  -- the list insertion after the tree predecessor equals prefix ++ sym :: suffix
  have hins : (match (L.takeWhile (fun it => decide (it.offset ≤ sym0.offset))).getLast? with
      | none => symAlias sym0 :: L
      | some p => insertAfterSid L p.sid (symAlias sym0))
      = L.takeWhile (fun it => decide (it.offset ≤ sym0.offset))
        ++ symAlias sym0
        :: L.dropWhile (fun it => decide (it.offset ≤ sym0.offset)) := by
    cases hp : (L.takeWhile (fun it => decide (it.offset ≤ sym0.offset))).getLast? with
    | none =>
        rw [List.getLast?_eq_none_iff] at hp
        rw [hp, List.nil_append]
        rw [hp, List.nil_append] at hsplit
        rw [hsplit]
    | some p =>
        obtain ⟨pre', hpre'⟩ := getLast?_decomp _ p hp
        have hdecomp : L = pre' ++ p :: L.dropWhile (fun it => decide (it.offset ≤ sym0.offset)) := by
          conv_lhs => rw [← hsplit, hpre']
          rw [List.append_assoc, List.singleton_append]
        have hne : ∀ x ∈ pre', x.sid ≠ p.sid := by
          intro x hx
          have := hLnodup
          rw [hdecomp, List.map_append, List.nodup_append] at this
          have hdisj := this.2.2
          intro hEq
          exact hdisj (a := x.sid) (List.mem_map_of_mem _ hx)
            (by rw [hEq, List.map_cons]; exact List.mem_cons_self _ _)
        show insertAfterSid L p.sid (symAlias sym0)
          = L.takeWhile (fun it => decide (it.offset ≤ sym0.offset))
            ++ symAlias sym0
            :: L.dropWhile (fun it => decide (it.offset ≤ sym0.offset))
        conv_lhs => rw [hdecomp]
        rw [insertAfterSid_at p _ pre' _ hne, hpre', List.append_assoc, List.singleton_append]
  simp only [hlist1, hins]

/-- **C8 (amended).** `elf_add_symbol` places the new symbol in the
section's symbol list immediately after its interval-tree predecessor —
the rightmost tree symbol with offset ≤ the new one's, at the front when
none exists — and in the interval tree exactly when its length is nonzero:
zero-length symbols of *any* type (`STT_NOTYPE` or not) are inserted and
then taken back out.  The tree stays offset-ordered; the list is
offset-ordered as long as tree and list carry the same symbols, which a
zero-length removal breaks. -/
theorem elf_add_symbol_spec (st : SecState) (sym0 : Sym)
    (hsortedT : sortedOff st.tree)
    (hnodup : (st.symList.map (fun s => s.sid)).Nodup)
    (htreeSub : ∀ x ∈ st.tree, ∃ y ∈ st.symList, y.sid = x.sid)
    (hfresh : ∀ x ∈ st.symList, x.sid ≠ sym0.sid) :
    (symAlias sym0 ∈ (elf_add_symbol st sym0).symList) ∧
    (∀ x ∈ st.symList, ∃ y ∈ (elf_add_symbol st sym0).symList, y.sid = x.sid) ∧
    (sym0.len ≠ 0 → symAlias sym0 ∈ (elf_add_symbol st sym0).tree) ∧
    (sym0.len = 0 → ∀ x ∈ (elf_add_symbol st sym0).tree, x.sid ≠ sym0.sid) ∧
    sortedOff (elf_add_symbol st sym0).tree ∧
    (∃ l1 l2, (elf_add_symbol st sym0).symList = l1 ++ symAlias sym0 :: l2 ∧
      (∀ p, treePred st.tree sym0.offset = some p →
        ∃ x, l1.getLast? = some x ∧ x.sid = p.sid) ∧
      (treePred st.tree sym0.offset = none → l1 = [])) ∧
    (st.tree = st.symList → sortedOff st.symList →
      sortedOff (elf_add_symbol st sym0).symList) := by
  set m : List Nat := treeMatchedSids st.tree sym0 with hm
  set tree1 : List Sym := st.tree.map (aliasUpd sym0) with htree1
  set list1 : List Sym := st.symList.map (listAlias m sym0) with hlist1
  set pre : List Sym := tree1.takeWhile (fun it => decide (it.offset ≤ sym0.offset)) with hpre
  set post : List Sym := tree1.dropWhile (fun it => decide (it.offset ≤ sym0.offset)) with hpost
  have hList : (elf_add_symbol st sym0).symList =
      (match pre.getLast? with
        | none => symAlias sym0 :: list1
        | some p => insertAfterSid list1 p.sid (symAlias sym0)) := rfl
  have hTree : (elf_add_symbol st sym0).tree =
      (if sym0.len == 0 then pre ++ post else pre ++ symAlias sym0 :: post) := rfl
  have hla_sid : ∀ it : Sym, (listAlias m sym0 it).sid = it.sid := by
    intro it
    unfold listAlias
    split <;> rfl
  have htree1_sorted : sortedOff tree1 := by
    rw [htree1, sortedOff, List.pairwise_map]
    apply List.Pairwise.imp ?_ hsortedT
    intro a b hab
    rw [aliasUpd_offset, aliasUpd_offset]
    exact hab
  have hpre_le : ∀ x ∈ pre, x.offset ≤ sym0.offset := takeWhile_le sym0.offset tree1
  have hpost_gt : ∀ x ∈ post, sym0.offset < x.offset := dropWhile_gt sym0.offset tree1 htree1_sorted
  have hmem_list2 : symAlias sym0 ∈ (elf_add_symbol st sym0).symList := by
    rw [hList]
    cases hpg : pre.getLast? with
    | none =>
        simp only [hpg]
        exact List.mem_cons_self _ _
    | some p =>
        simp only [hpg]
        exact insertAfterSid_mem_self p.sid (symAlias sym0) list1
  have hsurv : ∀ x ∈ st.symList, ∃ y ∈ (elf_add_symbol st sym0).symList, y.sid = x.sid := by
    intro x hx
    refine ⟨listAlias m sym0 x, ?_, hla_sid x⟩
    rw [hList]
    have hx1 : listAlias m sym0 x ∈ list1 := by
      rw [hlist1]
      exact List.mem_map_of_mem _ hx
    cases hpg : pre.getLast? with
    | none =>
        simp only [hpg]
        exact List.mem_cons_of_mem _ hx1
    | some p =>
        simp only [hpg]
        exact insertAfterSid_subset p.sid (symAlias sym0) list1 _ hx1
  have htree_mem : sym0.len ≠ 0 → symAlias sym0 ∈ (elf_add_symbol st sym0).tree := by
    intro hlen
    rw [hTree, if_neg (by simpa using hlen)]
    simp
  have htree_no : sym0.len = 0 → ∀ x ∈ (elf_add_symbol st sym0).tree, x.sid ≠ sym0.sid := by
    intro hlen x hx
    rw [hTree, if_pos (by simpa using hlen)] at hx
    have hx1 : x ∈ tree1 := by
      rw [List.mem_append] at hx
      rcases hx with hx | hx
      · exact (List.takeWhile_sublist _).subset hx
      · exact (List.dropWhile_sublist _).subset hx
    rw [htree1, List.mem_map] at hx1
    obtain ⟨y, hy, hyx⟩ := hx1
    rw [← hyx, aliasUpd_sid]
    obtain ⟨z, hz, hzy⟩ := htreeSub y hy
    rw [← hzy]
    exact hfresh z hz
  have htree_sorted : sortedOff (elf_add_symbol st sym0).tree := by
    rw [hTree]
    by_cases hc : (sym0.len == 0) = true
    · rw [if_pos hc]
      have hglue : pre ++ post = tree1 := List.takeWhile_append_dropWhile _ _
      rw [hglue]
      exact htree1_sorted
    · rw [if_neg hc]
      rw [sortedOff, List.pairwise_append]
      refine ⟨?_, ?_, ?_⟩
      · exact List.Pairwise.sublist (List.takeWhile_sublist _) htree1_sorted
      · rw [List.pairwise_cons]
        refine ⟨?_, List.Pairwise.sublist (List.dropWhile_sublist _) htree1_sorted⟩
        intro x hx
        have hgt := hpost_gt x hx
        show sym0.offset ≤ x.offset
        omega
      · intro a ha b hb
        rw [List.mem_cons] at hb
        have h1 := hpre_le a ha
        rcases hb with hb | hb
        · rw [hb]
          show a.offset ≤ sym0.offset
          exact h1
        · have := hpost_gt b hb
          omega
  have hpredEq : pre.getLast? = (treePred st.tree sym0.offset).map (aliasUpd sym0) := by
    rw [hpre, htree1,
      takeWhile_map_comm (aliasUpd sym0) _ (fun x => by rw [aliasUpd_offset]) st.tree]
    rw [getLast?_map_sym]
    rfl
  have hposition : ∃ l1 l2, (elf_add_symbol st sym0).symList = l1 ++ symAlias sym0 :: l2 ∧
      (∀ p, treePred st.tree sym0.offset = some p →
        ∃ x, l1.getLast? = some x ∧ x.sid = p.sid) ∧
      (treePred st.tree sym0.offset = none → l1 = []) := by
    rw [hList]
    cases hP : treePred st.tree sym0.offset with
    | none =>
        have hpg : pre.getLast? = none := by
          rw [hpredEq, hP]
          rfl
        simp only [hpg]
        exact ⟨[], list1, rfl, fun p hp => Option.noConfusion hp, fun _ => rfl⟩
    | some p =>
        have hpg : pre.getLast? = some (aliasUpd sym0 p) := by
          rw [hpredEq, hP]
          rfl
        simp only [hpg]
        have hpmem : p ∈ st.tree := by
          have hint : p ∈ st.tree.takeWhile (fun it => decide (it.offset ≤ sym0.offset)) := by
            unfold treePred at hP
            obtain ⟨l', hl'⟩ := getLast?_decomp _ p hP
            rw [hl']
            exact List.mem_append_right _ (List.mem_cons_self _ _)
          exact (List.takeWhile_sublist _).subset hint
        obtain ⟨z, hz, hzsid⟩ := htreeSub p hpmem
        have hzl : listAlias m sym0 z ∈ list1 := by
          rw [hlist1]
          exact List.mem_map_of_mem _ hz
        obtain ⟨l1', x, l2', hsplit, hxsid, hins⟩ :=
          insertAfterSid_split ((aliasUpd sym0 p).sid) (symAlias sym0) list1
            ⟨listAlias m sym0 z, hzl, by rw [hla_sid, hzsid, aliasUpd_sid]⟩
        refine ⟨l1' ++ [x], l2', ?_, ?_, ?_⟩
        · rw [hins, List.append_assoc, List.singleton_append]
        · intro p' hp'
          rw [Option.some_inj] at hp'
          subst hp'
          refine ⟨x, List.getLast?_concat _, ?_⟩
          rw [hxsid, aliasUpd_sid]
        · intro hnone
          exact Option.noConfusion hnone
  have hcond_sorted : st.tree = st.symList → sortedOff st.symList →
      sortedOff (elf_add_symbol st sym0).symList := by
    intro hmirror hsortedL
    rw [elf_add_symbol_eq st sym0 hmirror hnodup]
    show sortedOff ((st.symList.map (aliasUpd sym0)).takeWhile
        (fun it => decide (it.offset ≤ sym0.offset))
      ++ symAlias sym0
      :: (st.symList.map (aliasUpd sym0)).dropWhile
        (fun it => decide (it.offset ≤ sym0.offset)))
    set L2 : List Sym := st.symList.map (aliasUpd sym0) with hL2
    have hL2sorted : sortedOff L2 := by
      rw [hL2, sortedOff, List.pairwise_map]
      apply List.Pairwise.imp ?_ hsortedL
      intro a b hab
      rw [aliasUpd_offset, aliasUpd_offset]
      exact hab
    have hpre2 : ∀ x ∈ L2.takeWhile (fun it => decide (it.offset ≤ sym0.offset)),
        x.offset ≤ sym0.offset := takeWhile_le sym0.offset L2
    have hpost2 : ∀ x ∈ L2.dropWhile (fun it => decide (it.offset ≤ sym0.offset)),
        sym0.offset < x.offset := dropWhile_gt sym0.offset L2 hL2sorted
    rw [sortedOff, List.pairwise_append]
    refine ⟨List.Pairwise.sublist (List.takeWhile_sublist _) hL2sorted, ?_, ?_⟩
    · rw [List.pairwise_cons]
      refine ⟨?_, List.Pairwise.sublist (List.dropWhile_sublist _) hL2sorted⟩
      intro x hx
      have := hpost2 x hx
      show sym0.offset ≤ x.offset
      omega
    · intro a ha b hb
      rw [List.mem_cons] at hb
      have h1 := hpre2 a ha
      rcases hb with hb | hb
      · rw [hb]
        show a.offset ≤ sym0.offset
        exact h1
      · have := hpost2 b hb
        omega
  exact ⟨hmem_list2, hsurv, htree_mem, htree_no, htree_sorted, hposition, hcond_sorted⟩

def c8a : Sym :=
  { sid := 1, name := ['a'], typ := .func, bind := .localB, sec := 1,
    offset := 0, len := 4, idx := 0, pfunc := none, cfunc := none }

def c8b : Sym :=
  { sid := 2, name := ['b'], typ := .func, bind := .localB, sec := 1,
    offset := 8, len := 4, idx := 1, pfunc := none, cfunc := none }

def c8st : SecState := { symList := [c8a], tree := [c8a] }

/-- Witness for C8 (amended): adding `b@[8,12)` after `a@[0,4)` puts `b` in
both list and tree, and the (mirrored, sorted) list stays offset-sorted. -/
theorem elf_add_symbol_spec_witness :
    (symAlias c8b ∈ (elf_add_symbol c8st c8b).symList) ∧
    sortedOff (elf_add_symbol c8st c8b).symList ∧
    (symAlias c8b ∈ (elf_add_symbol c8st c8b).tree) := by
  have h := elf_add_symbol_spec c8st c8b (by decide) (by decide) (by decide) (by decide)
  exact ⟨h.1, h.2.2.2.2.2.2 rfl (by decide), h.2.2.1 (by decide)⟩

/-- A zero-length `STT_FUNC` symbol. -/
def c8f : Sym :=
  { sid := 5, name := ['f'], typ := .func, bind := .localB, sec := 1,
    offset := 0, len := 0, idx := 0, pfunc := none, cfunc := none }

/-- `a@[0,2)`, then the zero-length `w@2` (removed from the tree), then
`n@3`: `n`'s tree predecessor is `a`, so `n` lands before `w` in the list. -/
def c8a2 : Sym :=
  { sid := 1, name := ['a'], typ := .func, bind := .localB, sec := 1,
    offset := 0, len := 2, idx := 0, pfunc := none, cfunc := none }

def c8w : Sym :=
  { sid := 2, name := ['w'], typ := .notype, bind := .localB, sec := 1,
    offset := 2, len := 0, idx := 1, pfunc := none, cfunc := none }

def c8n : Sym :=
  { sid := 3, name := ['n'], typ := .func, bind := .localB, sec := 1,
    offset := 3, len := 1, idx := 2, pfunc := none, cfunc := none }

def c8step3 : SecState :=
  elf_add_symbol (elf_add_symbol (elf_add_symbol { symList := [], tree := [] } c8a2) c8w) c8n

/-- **C8 counterexample.** Two failures of the claim: the zero-length
`STT_FUNC` symbol `c8f` is removed from the interval tree even though it
is not `STT_NOTYPE` (the removal at `elf.c:397` tests only `!sym->len`)
while staying in the symbol list; and after such a removal the list is no
longer offset-ordered — inserting `n@3` after the zero-length `w@2` places
`n` right after its tree predecessor `a@0`, before `w`, so the list
offsets read 0, 3, 2. -/
theorem elf_add_symbol_c8_counterexample :
    (c8f.typ ≠ SymType.notype ∧ c8f.len = 0 ∧
      (elf_add_symbol { symList := [], tree := [] } c8f).tree = [] ∧
      (∃ y ∈ (elf_add_symbol { symList := [], tree := [] } c8f).symList, y.sid = c8f.sid)) ∧
    (c8step3.symList.map (fun s => s.offset) = [0, 3, 2] ∧
      ¬ sortedOff c8step3.symList) := by
  refine ⟨⟨by decide, rfl, rfl, ⟨symAlias c8f, by decide, rfl⟩⟩, by decide, by decide⟩

/-! ## C7: cold-subfunction linking (`read_symbols`, second pass,
`elf.c:482`)

The pass walks every section's symbols in order; the traversal is supplied
as the state's own list order, with symbols identified by `sid`.  Only
`pfunc`, `cfunc` and `len` are mutated. -/

/-- `".cold"`. -/
def coldName : CName := ['.', 'c', 'o', 'l', 'd']

def MAX_NAME_LEN : Nat := 128

/-- `strstr`: index of the first occurrence of `pat`. -/
def substrIdx (pat : CName) : CName → Option Nat
  | [] => if pat.isEmpty then some 0 else none
  | c :: rest =>
      if pat.isPrefixOf (c :: rest) then some 0
      else (substrIdx pat rest).map (· + 1)

/-- `find_symbol_by_name` (`elf.c:226`). -/
def findSymByName (syms : List Sym) (nm : CName) : Option Sym :=
  syms.find? (fun s => s.name == nm)

def lookupSid (syms : List Sym) (sid : Nat) : Option Sym :=
  syms.find? (fun s => s.sid == sid)

def updateSid (syms : List Sym) (sid : Nat) (f : Sym → Sym) : List Sym :=
  syms.map (fun s => if s.sid == sid then f s else s)

/-- `if (sym->pfunc == NULL) sym->pfunc = sym;` and the same for `cfunc`
(elf.c, cold-subfunction pass). -/
def selfInitF : Sym → Sym := fun t =>
  { t with pfunc := some (t.pfunc.getD t.sid), cfunc := some (t.cfunc.getD t.sid) }

def setPfunc (v : Nat) : Sym → Sym := fun q => { q with pfunc := some v }

def setCfunc (v : Nat) : Sym → Sym := fun q => { q with cfunc := some v }

def subLen (v : Nat) : Sym → Sym := fun q => { q with len := q.len - v }

/-- `sym->pfunc = pfunc; pfunc->cfunc = sym;` followed by the
`-fnoreorder-functions` overlap removal (elf.c:516-531). -/
def coldLink (st1 : List Sym) (sid : Nat) (s pf : Sym) : Option (List Sym) :=
  let st3 := updateSid (updateSid st1 sid (setPfunc pf.sid)) pf.sid (setCfunc sid)
  match lookupSid st3 pf.sid with
  | none => some st3
  | some pcur =>
      if s.sec = pcur.sec ∧ pcur.offset ≤ s.offset ∧
          s.offset + s.len = pcur.offset + pcur.len then
        some (updateSid st3 pf.sid (subLen s.len))
      else some st3

/-- One iteration of the cold-subfunction loop for the symbol with id
`sid`: self-initialise `pfunc`/`cfunc`, then link parent and child and
shrink the parent when the child sits at its tail.  `none` is the pass
aborting (`return -1`): over-long parent name or missing parent. -/
def coldStep (st : List Sym) (sid : Nat) : Option (List Sym) :=
  match lookupSid st sid with
  | none => some st
  | some s =>
      if s.typ ≠ .func then some st
      else
        let st1 := updateSid st sid selfInitF
        match substrIdx coldName s.name with
        | none => some st1
        | some k =>
            if MAX_NAME_LEN < k then none
            else
              match findSymByName st1 (s.name.take k) with
              | none => none
              | some pf => coldLink st1 sid s pf

def coldPassAux : List Nat → List Sym → Option (List Sym)
  | [], st => some st
  | sid :: rest, st =>
      match coldStep st sid with
      | none => none
      | some st' => coldPassAux rest st'

/-- The second pass of `read_symbols`, iterating the symbols in traversal
order. -/
def cold_subfunction_pass (syms : List Sym) : Option (List Sym) :=
  coldPassAux (syms.map (fun s => s.sid)) syms

/-- The immutable part of a symbol under the cold pass. -/
def strip (x : Sym) : Nat × CName × SymType × SymBind × Nat × Nat :=
  (x.sid, x.name, x.typ, x.bind, x.sec, x.offset)

lemma strip_sid {x y : Sym} (h : strip x = strip y) : x.sid = y.sid := by
  unfold strip at h
  exact congrArg (fun t => t.1) h

lemma strip_name {x y : Sym} (h : strip x = strip y) : x.name = y.name := by
  unfold strip at h
  exact congrArg (fun t => t.2.1) h

lemma strip_sec {x y : Sym} (h : strip x = strip y) : x.sec = y.sec := by
  unfold strip at h
  exact congrArg (fun t => t.2.2.2.2.1) h

lemma strip_offset {x y : Sym} (h : strip x = strip y) : x.offset = y.offset := by
  unfold strip at h
  exact congrArg (fun t => t.2.2.2.2.2) h

lemma strip_typ {x y : Sym} (h : strip x = strip y) : x.typ = y.typ := by
  unfold strip at h
  exact congrArg (fun t => t.2.2.1) h

/-- `lookupSid` after `updateSid`, for a sid-preserving update. -/
lemma lookupSid_updateSid (l : List Sym) (t : Nat) (f : Sym → Sym)
    (hf : ∀ x, (f x).sid = x.sid) (q : Nat) :
    lookupSid (updateSid l t f) q
      = (lookupSid l q).map (fun x => if x.sid == t then f x else x) := by
  induction l with
  | nil => rfl
  | cons y rest ih =>
      unfold updateSid lookupSid at *
      rw [List.map_cons, List.find?_cons, List.find?_cons]
      have hsid : (if y.sid == t then f y else y).sid = y.sid := by
        split
        · exact hf y
        · rfl
      by_cases hq : (y.sid == q) = true
      · rw [hsid, hq]
        simp
      · rw [hsid]
        rw [Bool.not_eq_true] at hq
        rw [hq]
        exact ih

/-- `findSymByName` after `updateSid`, for a name-and-sid-preserving
update. -/
lemma findSymByName_updateSid (l : List Sym) (t : Nat) (f : Sym → Sym)
    (hf : ∀ x, (f x).name = x.name) (nm : CName) :
    findSymByName (updateSid l t f) nm
      = (findSymByName l nm).map (fun x => if x.sid == t then f x else x) := by
  induction l with
  | nil => rfl
  | cons y rest ih =>
      unfold updateSid findSymByName at *
      rw [List.map_cons, List.find?_cons, List.find?_cons]
      have hnm : (if y.sid == t then f y else y).name = y.name := by
        split
        · exact hf y
        · rfl
      by_cases hq : (y.name == nm) = true
      · rw [hnm, hq]
        simp
      · rw [hnm]
        rw [Bool.not_eq_true] at hq
        rw [hq]
        exact ih

lemma updateSid_strips (l : List Sym) (t : Nat) (f : Sym → Sym)
    (hf : ∀ x, strip (f x) = strip x) :
    (updateSid l t f).map strip = l.map strip := by
  unfold updateSid
  rw [List.map_map]
  apply List.map_congr_left
  intro x _
  simp only [Function.comp_apply]
  split
  · exact hf x
  · rfl

lemma mem_of_lookupSid {l : List Sym} {sid : Nat} {x : Sym}
    (h : lookupSid l sid = some x) : x ∈ l ∧ x.sid = sid := by
  unfold lookupSid at h
  refine ⟨List.mem_of_find?_eq_some h, ?_⟩
  have := List.find?_some h
  simpa using this

lemma mem_of_findSymByName {l : List Sym} {nm : CName} {x : Sym}
    (h : findSymByName l nm = some x) : x ∈ l ∧ x.name = nm := by
  unfold findSymByName at h
  refine ⟨List.mem_of_find?_eq_some h, ?_⟩
  have := List.find?_some h
  simpa using this

lemma lookupSid_strips :
    ∀ (a b : List Sym), a.map strip = b.map strip → ∀ q : Nat,
      Option.map strip (lookupSid a q) = Option.map strip (lookupSid b q) := by
  intro a
  induction a with
  | nil =>
      intro b h q
      cases b with
      | nil => rfl
      | cons y ys => simp at h
  | cons x xs ih =>
      intro b h q
      cases b with
      | nil => simp at h
      | cons y ys =>
          rw [List.map_cons, List.map_cons] at h
          injection h with h1 h2
          unfold lookupSid
          rw [List.find?_cons, List.find?_cons]
          have hsid : x.sid = y.sid := strip_sid h1
          by_cases hq : (x.sid == q) = true
          · rw [hq, ← hsid, hq]
            simp [h1]
          · rw [Bool.not_eq_true] at hq
            rw [hq, ← hsid, hq]
            exact ih ys h2 q

lemma findSymByName_strips :
    ∀ (a b : List Sym), a.map strip = b.map strip → ∀ nm : CName,
      Option.map strip (findSymByName a nm) = Option.map strip (findSymByName b nm) := by
  intro a
  induction a with
  | nil =>
      intro b h nm
      cases b with
      | nil => rfl
      | cons y ys => simp at h
  | cons x xs ih =>
      intro b h nm
      cases b with
      | nil => simp at h
      | cons y ys =>
          rw [List.map_cons, List.map_cons] at h
          injection h with h1 h2
          unfold findSymByName
          rw [List.find?_cons, List.find?_cons]
          have hnm : x.name = y.name := strip_name h1
          by_cases hq : (x.name == nm) = true
          · rw [hq, ← hnm, hq]
            simp [h1]
          · rw [Bool.not_eq_true] at hq
            rw [hq, ← hnm, hq]
            exact ih ys h2 nm

lemma sid_map_of_strips {a b : List Sym} (h : a.map strip = b.map strip) :
    a.map (fun x => x.sid) = b.map (fun x => x.sid) := by
  have : ∀ l : List Sym, l.map (fun x => x.sid)
      = (l.map strip).map (fun t => t.1) := by
    intro l
    rw [List.map_map]
    rfl
  rw [this a, this b, h]

lemma mem_strip_of_mem {a b : List Sym} (h : a.map strip = b.map strip)
    {x : Sym} (hx : x ∈ a) : ∃ y ∈ b, strip y = strip x := by
  have : strip x ∈ b.map strip := by
    rw [← h]
    exact List.mem_map_of_mem _ hx
  rw [List.mem_map] at this
  obtain ⟨y, hy, hs⟩ := this
  exact ⟨y, hy, hs⟩


lemma selfInitF_strip : ∀ x : Sym, strip (selfInitF x) = strip x := fun _ => rfl

lemma selfInitF_sid : ∀ x : Sym, (selfInitF x).sid = x.sid := fun _ => rfl

lemma setPfunc_strip (v : Nat) : ∀ x : Sym, strip (setPfunc v x) = strip x := fun _ => rfl

lemma setPfunc_sid (v : Nat) : ∀ x : Sym, (setPfunc v x).sid = x.sid := fun _ => rfl

lemma setCfunc_strip (v : Nat) : ∀ x : Sym, strip (setCfunc v x) = strip x := fun _ => rfl

lemma setCfunc_sid (v : Nat) : ∀ x : Sym, (setCfunc v x).sid = x.sid := fun _ => rfl

lemma subLen_strip (v : Nat) : ∀ x : Sym, strip (subLen v x) = strip x := fun _ => rfl

lemma subLen_sid (v : Nat) : ∀ x : Sym, (subLen v x).sid = x.sid := fun _ => rfl

/-- The cold-pass context: the cold symbol `s`, its parent `p`, and the
well-formedness facts the claim needs.  `huniq` says no other cold symbol
names the same parent; `hnoscold` that no parent prefix equals `s`'s own
name. -/
structure ColdCtx (syms : List Sym) (s p : Sym) (k : Nat) : Prop where
  hnodup : (syms.map (fun x => x.sid)).Nodup
  hs : s ∈ syms
  hfunc : s.typ = .func
  hcold : substrIdx coldName s.name = some k
  hklen : k ≤ MAX_NAME_LEN
  hp : findSymByName syms (s.name.take k) = some p
  hpnotcold : substrIdx coldName p.name = none
  huniq : ∀ t ∈ syms, t.sid ≠ s.sid → ∀ k', substrIdx coldName t.name = some k' →
    t.name.take k' ≠ s.name.take k
  hnoscold : ∀ t ∈ syms, ∀ k', substrIdx coldName t.name = some k' →
    t.name.take k' ≠ s.name

lemma ColdCtx.hpmem {syms : List Sym} {s p : Sym} {k : Nat} (H : ColdCtx syms s p k) :
    p ∈ syms ∧ p.name = s.name.take k :=
  mem_of_findSymByName H.hp

lemma ColdCtx.hps {syms : List Sym} {s p : Sym} {k : Nat} (H : ColdCtx syms s p k) :
    p.sid ≠ s.sid := by
  intro hEq
  have hpm := H.hpmem
  have hxy : p = s := eq_of_sid_mem H.hnodup hpm.1 H.hs hEq
  rw [hxy] at hpm
  exact H.hnoscold s H.hs k H.hcold hpm.2.symm

lemma coldStep_eq_none (st : List Sym) (t : Nat) (h : lookupSid st t = none) :
    coldStep st t = some st := by
  unfold coldStep
  rw [h]

lemma coldStep_eq_notfunc (st : List Sym) (t : Nat) (tc : Sym)
    (h1 : lookupSid st t = some tc) (h2 : tc.typ ≠ SymType.func) :
    coldStep st t = some st := by
  unfold coldStep
  simp only [h1]
  rw [if_pos h2]

lemma coldStep_eq_selfinit (st : List Sym) (t : Nat) (tc : Sym)
    (h1 : lookupSid st t = some tc) (h2 : tc.typ = SymType.func)
    (h3 : substrIdx coldName tc.name = none) :
    coldStep st t = some (updateSid st t selfInitF) := by
  unfold coldStep
  simp only [h1, h3]
  rw [if_neg (by rw [h2]; exact fun hx => hx rfl)]

lemma coldStep_eq_abort_len (st : List Sym) (t : Nat) (tc : Sym) (k' : Nat)
    (h1 : lookupSid st t = some tc) (h2 : tc.typ = SymType.func)
    (h3 : substrIdx coldName tc.name = some k') (h4 : MAX_NAME_LEN < k') :
    coldStep st t = none := by
  unfold coldStep
  simp only [h1, h3]
  rw [if_neg (by rw [h2]; exact fun hx => hx rfl), if_pos h4]

lemma coldStep_eq_noparent (st : List Sym) (t : Nat) (tc : Sym) (k' : Nat)
    (h1 : lookupSid st t = some tc) (h2 : tc.typ = SymType.func)
    (h3 : substrIdx coldName tc.name = some k') (h4 : ¬ MAX_NAME_LEN < k')
    (h5 : findSymByName (updateSid st t selfInitF) (tc.name.take k') = none) :
    coldStep st t = none := by
  unfold coldStep
  simp only [h1, h3, h5]
  rw [if_neg (by rw [h2]; exact fun hx => hx rfl), if_neg h4]

lemma coldStep_eq_cold (st : List Sym) (t : Nat) (tc : Sym) (k' : Nat) (pf : Sym)
    (h1 : lookupSid st t = some tc) (h2 : tc.typ = SymType.func)
    (h3 : substrIdx coldName tc.name = some k') (h4 : ¬ MAX_NAME_LEN < k')
    (h5 : findSymByName (updateSid st t selfInitF) (tc.name.take k') = some pf) :
    coldStep st t = coldLink (updateSid st t selfInitF) t tc pf := by
  unfold coldStep
  simp only [h1, h3, h5]
  rw [if_neg (by rw [h2]; exact fun hx => hx rfl), if_neg h4]

lemma lookupSid_updateSid_other (l : List Sym) (u : Nat) (f : Sym → Sym)
    (hf : ∀ x, (f x).sid = x.sid) (q : Nat) (hq : q ≠ u) :
    lookupSid (updateSid l u f) q = lookupSid l q := by
  rw [lookupSid_updateSid l u f hf q]
  cases hx : lookupSid l q with
  | none => rfl
  | some x =>
      obtain ⟨-, hxs⟩ := mem_of_lookupSid hx
      rw [Option.map_some', if_neg (by rw [hxs]; simpa using hq)]

lemma lookupSid_of_mem {l : List Sym} (hnodup : (l.map (fun x => x.sid)).Nodup)
    {x : Sym} (hx : x ∈ l) : lookupSid l x.sid = some x := by
  cases hf : lookupSid l x.sid with
  | none =>
      unfold lookupSid at hf
      have := List.find?_eq_none.mp hf x hx
      simp at this
  | some y =>
      obtain ⟨hym, hys⟩ := mem_of_lookupSid hf
      rw [eq_of_sid_mem hnodup hym hx hys]

/-- `coldStep` at a symbol other than `s` leaves the `s` node untouched and
the `p` node untouched up to self-initialisation, which preserves `strip`,
`len`, and an already-set `cfunc`. -/
lemma coldStep_frame {syms : List Sym} {s p : Sym} {k : Nat} (H : ColdCtx syms s p k)
    (st : List Sym) (hSE : st.map strip = syms.map strip)
    (t : Nat) (ht : t ≠ s.sid) (st' : List Sym) (h : coldStep st t = some st') :
    st'.map strip = syms.map strip ∧
    lookupSid st' s.sid = lookupSid st s.sid ∧
    (∀ pc, lookupSid st p.sid = some pc →
      ∃ pc', lookupSid st' p.sid = some pc' ∧ strip pc' = strip pc ∧ pc'.len = pc.len ∧
        (pc.cfunc = some s.sid → pc'.cfunc = some s.sid)) := by
  cases htc : lookupSid st t with
  | none =>
      rw [coldStep_eq_none st t htc, Option.some_inj] at h
      subst h
      exact ⟨hSE, rfl, fun pc hpc => ⟨pc, hpc, rfl, rfl, fun hx => hx⟩⟩
  | some tc =>
      have htcm := (mem_of_lookupSid htc).1
      have htcsid := (mem_of_lookupSid htc).2
      by_cases htyp : tc.typ = SymType.func
      · have hst1SE : (updateSid st t selfInitF).map strip = syms.map strip := by
          rw [updateSid_strips _ _ selfInitF selfInitF_strip]
          exact hSE
        have hlookS1 : lookupSid (updateSid st t selfInitF) s.sid = lookupSid st s.sid :=
          lookupSid_updateSid_other st t selfInitF selfInitF_sid s.sid (Ne.symm ht)
        cases hsub : substrIdx coldName tc.name with
        | none =>
            rw [coldStep_eq_selfinit st t tc htc htyp hsub, Option.some_inj] at h
            subst h
            refine ⟨hst1SE, hlookS1, ?_⟩
            intro pc hpc
            rw [lookupSid_updateSid st t selfInitF selfInitF_sid p.sid, hpc, Option.map_some']
            by_cases hpt : (pc.sid == t) = true
            · rw [if_pos hpt]
              refine ⟨selfInitF pc, rfl, rfl, rfl, ?_⟩
              intro hc
              show some (pc.cfunc.getD pc.sid) = some s.sid
              rw [hc]
              rfl
            · rw [Bool.not_eq_true] at hpt
              rw [if_neg (by rw [hpt]; simp)]
              exact ⟨pc, rfl, rfl, rfl, fun hx => hx⟩
        | some k' =>
            by_cases hmax : MAX_NAME_LEN < k'
            · rw [coldStep_eq_abort_len st t tc k' htc htyp hsub hmax] at h
              exact Option.noConfusion h
            · cases hpf : findSymByName (updateSid st t selfInitF) (tc.name.take k') with
              | none =>
                  rw [coldStep_eq_noparent st t tc k' htc htyp hsub hmax hpf] at h
                  exact Option.noConfusion h
              | some pf =>
                  rw [coldStep_eq_cold st t tc k' pf htc htyp hsub hmax hpf] at h
                  obtain ⟨torig, htom, htos⟩ := mem_strip_of_mem hSE htcm
                  have htoname : torig.name = tc.name := strip_name htos
                  have htosid : torig.sid = t := by rw [strip_sid htos, htcsid]
                  have htp : t ≠ p.sid := by
                    intro hEq
                    have hto : torig = p := eq_of_sid_mem H.hnodup htom H.hpmem.1
                      (by rw [htosid, hEq])
                    have hcontr : substrIdx coldName p.name = some k' := by
                      rw [← hto, htoname]
                      exact hsub
                    rw [H.hpnotcold] at hcontr
                    exact Option.noConfusion hcontr
                  obtain ⟨pforig, hpfom, hpfos⟩ :=
                    mem_strip_of_mem hst1SE (mem_of_findSymByName hpf).1
                  have hpfname2 : pforig.name = tc.name.take k' := by
                    rw [strip_name hpfos, (mem_of_findSymByName hpf).2]
                  have hpfs : pf.sid ≠ s.sid := by
                    intro hEq
                    have hpo : pforig = s := eq_of_sid_mem H.hnodup hpfom H.hs
                      (by rw [strip_sid hpfos, hEq])
                    have hns := H.hnoscold torig htom k' (by rw [htoname]; exact hsub)
                    rw [htoname] at hns
                    rw [hpo] at hpfname2
                    exact hns hpfname2.symm
                  have hpfp : pf.sid ≠ p.sid := by
                    intro hEq
                    have hpo : pforig = p := eq_of_sid_mem H.hnodup hpfom H.hpmem.1
                      (by rw [strip_sid hpfos, hEq])
                    have huq := H.huniq torig htom (by rw [htosid]; exact ht) k'
                      (by rw [htoname]; exact hsub)
                    rw [htoname] at huq
                    rw [hpo, H.hpmem.2] at hpfname2
                    exact huq hpfname2.symm
                  set st1 : List Sym := updateSid st t selfInitF with hst1
                  simp only [coldLink] at h
                  set st2 : List Sym := updateSid st1 t (setPfunc pf.sid) with hst2
                  set st3 : List Sym := updateSid st2 pf.sid (setCfunc t) with hst3
                  have hSE3 : st3.map strip = syms.map strip := by
                    rw [hst3, hst2, updateSid_strips _ _ _ (setCfunc_strip t),
                      updateSid_strips _ _ _ (setPfunc_strip pf.sid)]
                    exact hst1SE
                  have hS3 : lookupSid st3 s.sid = lookupSid st s.sid := by
                    rw [hst3, hst2,
                      lookupSid_updateSid_other _ _ _ (setCfunc_sid t) s.sid (Ne.symm hpfs),
                      lookupSid_updateSid_other _ _ _ (setPfunc_sid pf.sid) s.sid (Ne.symm ht)]
                    exact hlookS1
                  have hP3 : lookupSid st3 p.sid = lookupSid st p.sid := by
                    rw [hst3, hst2,
                      lookupSid_updateSid_other _ _ _ (setCfunc_sid t) p.sid (Ne.symm hpfp),
                      lookupSid_updateSid_other _ _ _ (setPfunc_sid pf.sid) p.sid (Ne.symm htp),
                      hst1,
                      lookupSid_updateSid_other _ _ _ selfInitF_sid p.sid (Ne.symm htp)]
                  cases hq : lookupSid st3 pf.sid with
                  | none =>
                      simp only [hq, Option.some_inj] at h
                      subst h
                      refine ⟨hSE3, hS3, ?_⟩
                      intro pc hpc
                      refine ⟨pc, ?_, rfl, rfl, fun hx => hx⟩
                      rw [hP3]
                      exact hpc
                  | some pcur =>
                      simp only [hq] at h
                      by_cases hcond : tc.sec = pcur.sec ∧ pcur.offset ≤ tc.offset ∧
                          tc.offset + tc.len = pcur.offset + pcur.len
                      · rw [if_pos hcond, Option.some_inj] at h
                        subst h
                        refine ⟨?_, ?_, ?_⟩
                        · rw [updateSid_strips _ _ _ (subLen_strip tc.len)]
                          exact hSE3
                        · rw [lookupSid_updateSid_other _ _ _ (subLen_sid tc.len) s.sid
                            (Ne.symm hpfs)]
                          exact hS3
                        · intro pc hpc
                          refine ⟨pc, ?_, rfl, rfl, fun hx => hx⟩
                          rw [lookupSid_updateSid_other _ _ _ (subLen_sid tc.len) p.sid
                            (Ne.symm hpfp), hP3]
                          exact hpc
                      · rw [if_neg hcond, Option.some_inj] at h
                        subst h
                        refine ⟨hSE3, hS3, ?_⟩
                        intro pc hpc
                        refine ⟨pc, ?_, rfl, rfl, fun hx => hx⟩
                        rw [hP3]
                        exact hpc
      · rw [coldStep_eq_notfunc st t tc htc htyp, Option.some_inj] at h
        subst h
        exact ⟨hSE, rfl, fun pc hpc => ⟨pc, hpc, rfl, rfl, fun hx => hx⟩⟩

/-- elf.c:527-529: the cold child sits in the parent's section, at or after
the parent's start, and both ranges end together. -/
def coldCond (s p : Sym) : Prop :=
  s.sec = p.sec ∧ p.offset ≤ s.offset ∧ s.offset + s.len = p.offset + p.len

instance (s p : Sym) : Decidable (coldCond s p) := by
  unfold coldCond
  infer_instance

/-- Invariant before the pass reaches `s`: both nodes still carry their
original data (the parent up to self-initialisation). -/
def INVpre (syms : List Sym) (s p : Sym) (st : List Sym) : Prop :=
  st.map strip = syms.map strip ∧ lookupSid st s.sid = some s ∧
  ∃ pc, lookupSid st p.sid = some pc ∧ strip pc = strip p ∧ pc.len = p.len

/-- Invariant after the pass has processed `s`: parent and child are
linked and the parent is shrunk exactly when the overlap condition held. -/
def INVpost (syms : List Sym) (s p : Sym) (st : List Sym) : Prop :=
  st.map strip = syms.map strip ∧
  (∃ s2, lookupSid st s.sid = some s2 ∧ s2.pfunc = some p.sid) ∧
  (∃ p2, lookupSid st p.sid = some p2 ∧ p2.cfunc = some s.sid ∧ strip p2 = strip p ∧
    p2.len = (if coldCond s p then p.len - s.len else p.len))

/-- Processing `s` itself establishes the post-invariant. -/
lemma coldStep_s {syms : List Sym} {s p : Sym} {k : Nat} (H : ColdCtx syms s p k)
    (st : List Sym) (hSE : st.map strip = syms.map strip)
    (hls : lookupSid st s.sid = some s)
    (pc : Sym) (hlp : lookupSid st p.sid = some pc) (hstrip : strip pc = strip p)
    (hlen : pc.len = p.len) :
    ∃ st', coldStep st s.sid = some st' ∧ INVpost syms s p st' := by
  have hps := H.hps
  have hpcsid : pc.sid = p.sid := (mem_of_lookupSid hlp).2
  have hst1SE : (updateSid st s.sid selfInitF).map strip = syms.map strip := by
    rw [updateSid_strips _ _ selfInitF selfInitF_strip]
    exact hSE
  have hfind := findSymByName_strips (updateSid st s.sid selfInitF) syms hst1SE (s.name.take k)
  rw [H.hp, Option.map_some'] at hfind
  cases hpf : findSymByName (updateSid st s.sid selfInitF) (s.name.take k) with
  | none =>
      rw [hpf, Option.map_none'] at hfind
      exact Option.noConfusion hfind
  | some pf =>
      rw [hpf, Option.map_some', Option.some_inj] at hfind
      have hpfsid : pf.sid = p.sid := strip_sid hfind
      have hstep : coldStep st s.sid = coldLink (updateSid st s.sid selfInitF) s.sid s pf :=
        coldStep_eq_cold st s.sid s k pf hls H.hfunc H.hcold (Nat.not_lt.mpr H.hklen) hpf
      set st1 : List Sym := updateSid st s.sid selfInitF with hst1
      set st2 : List Sym := updateSid st1 s.sid (setPfunc pf.sid) with hst2
      set st3 : List Sym := updateSid st2 pf.sid (setCfunc s.sid) with hst3
      have hp1 : lookupSid st1 p.sid = some pc := by
        rw [hst1, lookupSid_updateSid_other _ _ _ selfInitF_sid p.sid hps]
        exact hlp
      have hp2 : lookupSid st2 p.sid = some pc := by
        rw [hst2, lookupSid_updateSid_other _ _ _ (setPfunc_sid pf.sid) p.sid hps]
        exact hp1
      have hp3 : lookupSid st3 p.sid = some (setCfunc s.sid pc) := by
        rw [hst3, lookupSid_updateSid _ _ _ (setCfunc_sid s.sid) p.sid, hp2, Option.map_some']
        rw [if_pos (by rw [hpcsid, hpfsid]; simp)]
      have hp3pf : lookupSid st3 pf.sid = some (setCfunc s.sid pc) := by
        rw [hpfsid]
        exact hp3
      have hs1 : lookupSid st1 s.sid = some (selfInitF s) := by
        rw [hst1, lookupSid_updateSid _ _ _ selfInitF_sid s.sid, hls, Option.map_some']
        rw [if_pos (by simp)]
      have hs2 : lookupSid st2 s.sid = some (setPfunc pf.sid (selfInitF s)) := by
        rw [hst2, lookupSid_updateSid _ _ _ (setPfunc_sid pf.sid) s.sid, hs1, Option.map_some']
        rw [if_pos (by rw [selfInitF_sid s]; simp)]
      have hs3 : lookupSid st3 s.sid = some (setPfunc pf.sid (selfInitF s)) := by
        rw [hst3, lookupSid_updateSid_other _ _ _ (setCfunc_sid s.sid) s.sid
          (by rw [hpfsid]; exact Ne.symm hps)]
        exact hs2
      have hSE3 : st3.map strip = syms.map strip := by
        rw [hst3, hst2, updateSid_strips _ _ _ (setCfunc_strip s.sid),
          updateSid_strips _ _ _ (setPfunc_strip pf.sid)]
        exact hst1SE
      have hsec : pc.sec = p.sec := strip_sec hstrip
      have hoff : pc.offset = p.offset := strip_offset hstrip
      by_cases hcond : coldCond s p
      · have hcondpc : s.sec = (setCfunc s.sid pc).sec ∧ (setCfunc s.sid pc).offset ≤ s.offset ∧
            s.offset + s.len = (setCfunc s.sid pc).offset + (setCfunc s.sid pc).len := by
          refine ⟨?_, ?_, ?_⟩
          · show s.sec = pc.sec
            rw [hsec]
            exact hcond.1
          · show pc.offset ≤ s.offset
            rw [hoff]
            exact hcond.2.1
          · show s.offset + s.len = pc.offset + pc.len
            rw [hoff, hlen]
            exact hcond.2.2
        refine ⟨updateSid st3 pf.sid (subLen s.len), ?_, ?_⟩
        · rw [hstep]
          simp only [coldLink]
          rw [← hst2, ← hst3]
          simp only [hp3pf]
          rw [if_pos hcondpc]
        · unfold INVpost
          refine ⟨?_, ⟨setPfunc pf.sid (selfInitF s), ?_, ?_⟩,
            ⟨subLen s.len (setCfunc s.sid pc), ?_, ?_, ?_, ?_⟩⟩
          · rw [updateSid_strips _ _ _ (subLen_strip s.len)]
            exact hSE3
          · rw [lookupSid_updateSid_other _ _ _ (subLen_sid s.len) s.sid
              (by rw [hpfsid]; exact Ne.symm hps)]
            exact hs3
          · show some pf.sid = some p.sid
            rw [hpfsid]
          · rw [lookupSid_updateSid _ _ _ (subLen_sid s.len) p.sid, hp3, Option.map_some']
            rw [if_pos (by show (pc.sid == pf.sid) = true; rw [hpcsid, hpfsid]; simp)]
          · show some s.sid = some s.sid
            rfl
          · show strip pc = strip p
            exact hstrip
          · show pc.len - s.len = if coldCond s p then p.len - s.len else p.len
            rw [if_pos hcond, hlen]
      · have hcondpc : ¬(s.sec = (setCfunc s.sid pc).sec ∧
            (setCfunc s.sid pc).offset ≤ s.offset ∧
            s.offset + s.len = (setCfunc s.sid pc).offset + (setCfunc s.sid pc).len) := by
          intro hcp
          have hc1 : s.sec = pc.sec := hcp.1
          have hc2 : pc.offset ≤ s.offset := hcp.2.1
          have hc3 : s.offset + s.len = pc.offset + pc.len := hcp.2.2
          rw [hsec] at hc1
          rw [hoff] at hc2
          rw [hoff, hlen] at hc3
          exact hcond ⟨hc1, hc2, hc3⟩
        refine ⟨st3, ?_, ?_⟩
        · rw [hstep]
          simp only [coldLink]
          rw [← hst2, ← hst3]
          simp only [hp3pf]
          rw [if_neg hcondpc]
        · unfold INVpost
          refine ⟨hSE3, ⟨setPfunc pf.sid (selfInitF s), hs3, ?_⟩,
            ⟨setCfunc s.sid pc, hp3, ?_, ?_, ?_⟩⟩
          · show some pf.sid = some p.sid
            rw [hpfsid]
          · show some s.sid = some s.sid
            rfl
          · show strip pc = strip p
            exact hstrip
          · show pc.len = if coldCond s p then p.len - s.len else p.len
            rw [if_neg hcond, hlen]

lemma coldPassAux_pre {syms : List Sym} {s p : Sym} {k : Nat} (H : ColdCtx syms s p k) :
    ∀ (sids : List Nat), (∀ t ∈ sids, t ≠ s.sid) → ∀ st out,
      INVpre syms s p st → coldPassAux sids st = some out → INVpre syms s p out := by
  intro sids
  induction sids with
  | nil =>
      intro _ st out hinv hrun
      unfold coldPassAux at hrun
      rw [Option.some_inj] at hrun
      subst hrun
      exact hinv
  | cons t rest ih =>
      intro hall st out hinv hrun
      obtain ⟨hSE0, hls0, pc, hpc, hpcs, hpcl⟩ := hinv
      unfold coldPassAux at hrun
      cases hstep : coldStep st t with
      | none =>
          simp only [hstep] at hrun
          exact Option.noConfusion hrun
      | some st2 =>
          simp only [hstep] at hrun
          obtain ⟨hSE', hS', hP'⟩ :=
            coldStep_frame H st hSE0 t (hall t (List.mem_cons_self t rest)) st2 hstep
          obtain ⟨pc', hpc', hs', hl', _⟩ := hP' pc hpc
          refine ih (fun u hu => hall u (List.mem_cons_of_mem _ hu)) st2 out
            ⟨hSE', ?_, pc', hpc', hs'.trans hpcs, hl'.trans hpcl⟩ hrun
          rw [hS']
          exact hls0

lemma coldPassAux_post {syms : List Sym} {s p : Sym} {k : Nat} (H : ColdCtx syms s p k) :
    ∀ (sids : List Nat), (∀ t ∈ sids, t ≠ s.sid) → ∀ st out,
      INVpost syms s p st → coldPassAux sids st = some out → INVpost syms s p out := by
  intro sids
  induction sids with
  | nil =>
      intro _ st out hinv hrun
      unfold coldPassAux at hrun
      rw [Option.some_inj] at hrun
      subst hrun
      exact hinv
  | cons t rest ih =>
      intro hall st out hinv hrun
      obtain ⟨hSE0, ⟨s2, hs2, hs2p⟩, ⟨p2, hp2, hp2c, hp2s, hp2l⟩⟩ := hinv
      unfold coldPassAux at hrun
      cases hstep : coldStep st t with
      | none =>
          simp only [hstep] at hrun
          exact Option.noConfusion hrun
      | some st2 =>
          simp only [hstep] at hrun
          obtain ⟨hSE', hS', hP'⟩ :=
            coldStep_frame H st hSE0 t (hall t (List.mem_cons_self t rest)) st2 hstep
          obtain ⟨pc', hpc', hs', hl', hcf⟩ := hP' p2 hp2
          refine ih (fun u hu => hall u (List.mem_cons_of_mem _ hu)) st2 out
            ⟨hSE', ⟨s2, ?_, hs2p⟩, ⟨pc', hpc', hcf hp2c, hs'.trans hp2s, hl'.trans hp2l⟩⟩ hrun
          rw [hS']
          exact hs2

lemma coldPassAux_cons (x : Nat) (r : List Nat) (st : List Sym) :
    coldPassAux (x :: r) st =
      match coldStep st x with
      | none => none
      | some st2 => coldPassAux r st2 := rfl

lemma coldPassAux_append (xs ys : List Nat) :
    ∀ st, coldPassAux (xs ++ ys) st = (coldPassAux xs st).bind (coldPassAux ys) := by
  induction xs with
  | nil =>
      intro st
      rfl
  | cons x xs ih =>
      intro st
      rw [List.cons_append, coldPassAux_cons x (xs ++ ys) st, coldPassAux_cons x xs st]
      cases coldStep st x with
      | none => rfl
      | some st2 => exact ih st2

/-- C7: after `read_symbols`, an STT_FUNC symbol `s` whose name contains
".cold" and whose name prefix resolves to a parent function `p` has
`s.pfunc` pointing at the parent and `p.cfunc` pointing back at the cold
child; when the child lies in the parent's section at or after its start
with both ranges ending together (elf.c:527-529), the parent's `len` is
reduced by the child's `len`, making the two ranges disjoint (the parent
then ends exactly at the child's offset). -/
theorem read_symbols_cold_spec (syms out : List Sym) (s p : Sym) (k : Nat)
    (H : ColdCtx syms s p k) (hrun : cold_subfunction_pass syms = some out) :
    ∃ s2 p2, lookupSid out s.sid = some s2 ∧ lookupSid out p.sid = some p2 ∧
      s2.pfunc = some p.sid ∧ p2.cfunc = some s.sid ∧
      p2.sec = p.sec ∧ p2.offset = p.offset ∧
      p2.len = (if coldCond s p then p.len - s.len else p.len) ∧
      (coldCond s p → p2.offset + p2.len = s.offset) := by
  unfold cold_subfunction_pass at hrun
  have hmem : s.sid ∈ syms.map (fun x => x.sid) := List.mem_map_of_mem _ H.hs
  obtain ⟨A, B, hAB⟩ := List.append_of_mem hmem
  rw [hAB] at hrun
  have hnd : (A ++ s.sid :: B).Nodup := by
    rw [← hAB]
    exact H.hnodup
  obtain ⟨hndA, hndSB, hdisj⟩ := List.nodup_append.mp hnd
  have hAne : ∀ t ∈ A, t ≠ s.sid := by
    intro t htA hEq
    exact hdisj htA (by rw [hEq]; exact List.mem_cons_self _ _)
  have hBne : ∀ t ∈ B, t ≠ s.sid := by
    intro t htB hEq
    have hnotin := (List.nodup_cons.mp hndSB).1
    rw [← hEq] at hnotin
    exact hnotin htB
  rw [coldPassAux_append] at hrun
  cases hA : coldPassAux A syms with
  | none =>
      simp only [hA, Option.none_bind] at hrun
      exact Option.noConfusion hrun
  | some stA =>
      rw [hA, Option.some_bind] at hrun
      have hpre0 : INVpre syms s p syms :=
        ⟨rfl, lookupSid_of_mem H.hnodup H.hs, p, lookupSid_of_mem H.hnodup H.hpmem.1, rfl, rfl⟩
      obtain ⟨hSEA, hlsA, pcA, hlpA, hpsA, hplA⟩ := coldPassAux_pre H A hAne syms stA hpre0 hA
      obtain ⟨stS, hstS, hpostS⟩ := coldStep_s H stA hSEA hlsA pcA hlpA hpsA hplA
      unfold coldPassAux at hrun
      simp only [hstS] at hrun
      obtain ⟨_, ⟨s2, hs2, hs2p⟩, ⟨p2, hp2, hp2c, hp2s, hp2l⟩⟩ :=
        coldPassAux_post H B hBne stS out hpostS hrun
      refine ⟨s2, p2, hs2, hp2, hs2p, hp2c, strip_sec hp2s, strip_offset hp2s, hp2l, ?_⟩
      intro hc
      rw [strip_offset hp2s, hp2l, if_pos hc]
      obtain ⟨h1, h2, h3⟩ := hc
      omega

/-- S1 scenario: `foo` at `[0x0, 0x100)`. -/
def c7p : Sym :=
  { sid := 1, name := ['f', 'o', 'o'], typ := .func, bind := .globalB, sec := 1,
    offset := 0, len := 256, idx := 1, pfunc := none, cfunc := none }

/-- S1 scenario: `foo.cold` at `[0xc0, 0x100)` inside `foo`. -/
def c7s : Sym :=
  { sid := 2, name := ['f', 'o', 'o', '.', 'c', 'o', 'l', 'd'], typ := .func, bind := .globalB,
    sec := 1, offset := 192, len := 64, idx := 2, pfunc := none, cfunc := none }

def c7syms : List Sym := [c7p, c7s]

/-- The symbol table after the cold pass: `foo.len = 0xc0`, the two linked. -/
def c7out : List Sym :=
  [{ c7p with len := 192, pfunc := some 1, cfunc := some 2 },
   { c7s with pfunc := some 1, cfunc := some 2 }]

lemma c7ctx : ColdCtx c7syms c7s c7p 3 := by
  refine ⟨by decide, by decide, rfl, rfl, by decide, rfl, rfl, ?_, ?_⟩
  · intro t htm hne k' hk'
    rcases List.mem_cons.mp htm with rfl | htm2
    · have hval : substrIdx coldName c7p.name = none := rfl
      rw [hval] at hk'
      exact Option.noConfusion hk'
    · rcases List.mem_cons.mp htm2 with rfl | htm3
      · exact absurd rfl hne
      · exact absurd htm3 (List.not_mem_nil t)
  · intro t htm k' hk'
    rcases List.mem_cons.mp htm with rfl | htm2
    · have hval : substrIdx coldName c7p.name = none := rfl
      rw [hval] at hk'
      exact Option.noConfusion hk'
    · rcases List.mem_cons.mp htm2 with rfl | htm3
      · have hval : substrIdx coldName c7s.name = some 3 := rfl
        rw [hval, Option.some_inj] at hk'
        subst hk'
        decide
      · exact absurd htm3 (List.not_mem_nil t)

theorem read_symbols_cold_spec_witness :
    ∃ s2 p2, lookupSid c7out c7s.sid = some s2 ∧ lookupSid c7out c7p.sid = some p2 ∧
      s2.pfunc = some c7p.sid ∧ p2.cfunc = some c7s.sid ∧
      p2.sec = c7p.sec ∧ p2.offset = c7p.offset ∧
      p2.len = (if coldCond c7s c7p then c7p.len - c7s.len else c7p.len) ∧
      (coldCond c7s c7p → p2.offset + p2.len = c7s.offset) :=
  read_symbols_cold_spec c7syms c7out c7s c7p 3 c7ctx (by rfl)
